import Mathlib

/-!
Window PoSt scheduler (`storage/wdpost_run.go`)

A shallow embedding of the functions of `storage/wdpost_run.go` and the
properties of them that the specification states.

Conventions of the embedding

* `bitfield.BitField` (package `go-bitfield`) is a finite set of sector
  numbers; `ForEach` visits the set bits in ascending order, `Count` is the
  cardinality, `SubtractBitField` / `MergeBitFields` are set difference and
  union, `Set` adds one bit.  `SubtractBitField`, `MergeBitFields` and `Count`
  keep their `error` result so that the control flow of the source is kept
  line by line; `ForEach` with a callback that returns `nil` does not fail.
* A Go `map` is an association list without duplicate keys (`GoMap`); the
  order in which `range` visits the keys is not specified by Go and is the
  field `rangeOrder` of the scheduler.
* The collaborators of the scheduler (chain API, provability oracle, proof
  engine, codec) are fields of `WindowPoStScheduler`; each returns
  `Except Error _` where the Go signature has an `error` result.
* A function of the source that calls a collaborator with an effect returns
  `Run α`: the trace of collaborator calls it made, and its outcome (a
  value, a Go `error`, or a run-time panic).
* Logging and tracing spans are not part of the model.
-/

set_option autoImplicit false

namespace Storage

/-! ## Errors, outcomes, traces -/

/-- Go `error` values that the file builds or receives. -/
inductive Error where
  /-- The package-level sentinel `errNoPartitions`. -/
  | errNoPartitions
  /-- Result of `xerrors.Errorf(msg)` without a wrapped cause. -/
  | errorf (msg : String)
  /-- Result of `xerrors.Errorf(msg + ": %w", cause)`. -/
  | wrap (msg : String) (cause : Error)
  /-- An error value produced by a collaborator. -/
  | external (code : Nat)
  deriving DecidableEq, Repr

/-- Outcome of running a Go function: a value, an error, or a panic. -/
inductive Outcome (α : Type) where
  | ok (a : α)
  | err (e : Error)
  | panic (msg : String)
  deriving DecidableEq, Repr

/-- Equality of collaborator results is decidable. -/
instance instDecidableEqExcept {ε α : Type} [DecidableEq ε] [DecidableEq α] :
    DecidableEq (Except ε α)
  | .ok a, .ok b =>
    if h : a = b then isTrue (congrArg Except.ok h) else isFalse fun h2 => h (Except.ok.inj h2)
  | .error a, .error b =>
    if h : a = b then isTrue (congrArg Except.error h)
    else isFalse fun h2 => h (Except.error.inj h2)
  | .ok _, .error _ => isFalse fun h => Except.noConfusion h
  | .error _, .ok _ => isFalse fun h => Except.noConfusion h

abbrev Address := Nat
abbrev ActorID := Nat
abbrev SectorNumber := Nat
abbrev CID := Nat
abbrev Bytes := List Nat
abbrev Randomness := List Nat
abbrev ChainEpoch := Int
abbrev TokenAmount := Int
abbrev abi.RegisteredSealProof := Nat
abbrev TipSetKey := Nat

/-- Counterpart of `types.TipSet`, the parts the file reads. -/
structure TipSet where
  Key : TipSetKey
  Height : ChainEpoch
  deriving DecidableEq, Repr

/-- Counterpart of `bitfield.BitField`: a finite set of bit positions. -/
abbrev BitField := Finset Nat

/-- Counterpart of `bitfield.New()`. -/
def BitField.New : BitField := ∅

/-- Counterpart of `BitField.Set`: sets one bit. -/
def BitField.Set (bf : BitField) (bit : Nat) : BitField := insert bit bf

/-- Counterpart of `BitField.Count`. -/
def BitField.Count (bf : BitField) : Except Error Nat := .ok bf.card

/-- The bits in the order in which `BitField.ForEach` visits them (ascending).
It is written as a filter of an initial segment of the naturals so that it
evaluates on concrete sets; it is the sorted listing of the set. -/
def BitField.ForEach (bf : BitField) : List Nat :=
  (List.range (bf.sup id + 1)).filter (fun n => n ∈ bf)

/-- Counterpart of `bitfield.SubtractBitField`. -/
def SubtractBitField (a b : BitField) : Except Error BitField := .ok (a \ b)

/-- Counterpart of `bitfield.MergeBitFields`. -/
def MergeBitFields (a b : BitField) : Except Error BitField := .ok (a ∪ b)

/-- Counterpart of `abi.SectorID`. -/
structure SectorID where
  Miner : ActorID
  Number : SectorNumber
  deriving DecidableEq, Repr

/-- Counterpart of `proof.SectorInfo`. -/
structure SectorInfo where
  SealProof : abi.RegisteredSealProof
  SectorNumber : SectorNumber
  SealedCID : CID
  deriving DecidableEq, Repr

/-- The part of `miner.SectorOnChainInfo` that the file reads (`sector.Info`). -/
structure SectorPreCommitInfo where
  SealProof : abi.RegisteredSealProof
  SealedCID : CID
  deriving DecidableEq, Repr

/-- Counterpart of `api.ChainSectorInfo`, the element type of `StateMinerSectors`. -/
structure ChainSectorInfo where
  Info : SectorPreCommitInfo
  ID : SectorNumber
  deriving DecidableEq, Repr

/-- Method numbers of the miner actor that the file uses. -/
inductive MethodNum where
  | SubmitWindowedPoSt
  | DeclareFaults
  | DeclareFaultsRecovered
  | other (n : Nat)
  deriving DecidableEq, Repr

/-- Counterpart of `types.Message`. -/
structure Message where
  To : Address
  From : Address
  Nonce : Nat
  Value : TokenAmount
  GasLimit : Int
  GasFeeCap : TokenAmount
  GasPremium : TokenAmount
  Method : MethodNum
  Params : Bytes
  deriving DecidableEq, Repr

/-- Counterpart of `api.MessageSendSpec`. -/
structure MessageSendSpec where
  MaxFee : TokenAmount
  deriving DecidableEq, Repr

/-- Counterpart of `dline.Info`, the fields the file reads. -/
structure DlineInfo where
  Index : Nat
  Open : ChainEpoch
  Challenge : ChainEpoch
  WPoStPeriodDeadlines : Nat
  deriving DecidableEq, Repr

/-- Calls to collaborators that have an effect or whose occurrence the
specification talks about. -/
inductive Event where
  | CheckProvable (spt : abi.RegisteredSealProof) (tocheck : List SectorID)
  | GenerateWindowPoSt (mid : ActorID) (sinfos : List SectorInfo) (rand : Randomness)
  | MpoolPushMessage (msg : Message) (spec : MessageSendSpec)
  | StateWaitMsg (cid : CID)
  | failPost (deadline : DlineInfo)
  deriving DecidableEq, Repr

/-- A run of a function of the file: the collaborator calls it made, in
order, and how it ended. -/
structure Run (α : Type) where
  trace : List Event
  out : Outcome α
  deriving DecidableEq

/-- Returning a value without calling anything. -/
def Run.pure {α : Type} (a : α) : Run α := ⟨[], .ok a⟩

/-- Sequencing: the second part runs only when the first returned a value. -/
def Run.bind {α β : Type} (m : Run α) (f : α → Run β) : Run β :=
  match m.out with
  | .ok a => ⟨m.trace ++ (f a).trace, (f a).out⟩
  | .err e => ⟨m.trace, .err e⟩
  | .panic msg => ⟨m.trace, .panic msg⟩

instance : Monad Run where
  pure := Run.pure
  bind := Run.bind

/-- A Go `return ..., err`. -/
def Run.fail {α : Type} (e : Error) : Run α := ⟨[], .err e⟩

/-- Result of a collaborator call that leaves no event. -/
def Run.ofExcept {α : Type} : Except Error α → Run α
  | .ok a => ⟨[], .ok a⟩
  | .error e => ⟨[], .err e⟩

/-- Result of a collaborator call that is recorded in the trace. -/
def Run.call {α : Type} (ev : Event) : Except Error α → Run α
  | .ok a => ⟨[ev], .ok a⟩
  | .error e => ⟨[ev], .err e⟩

/-- The Go idiom `if err != nil { return ..., xerrors.Errorf(msg + ": %w", err) }`. -/
def wrapErr {α : Type} (msg : String) : Except Error α → Except Error α
  | .ok a => .ok a
  | .error e => .error (.wrap msg e)

/-- The same idiom around a call of a function of this file. -/
def Run.wrap {α : Type} (msg : String) (r : Run α) : Run α :=
  match r.out with
  | .err e => ⟨r.trace, .err (.wrap msg e)⟩
  | _ => r

/-- The messages a run pushed to the message pool, in order. -/
def pushedMessages (tr : List Event) : List Message :=
  tr.filterMap fun e =>
    match e with
    | .MpoolPushMessage msg _ => some msg
    | _ => none

/-- The queries a run sent to the provability oracle, in order. -/
def oracleCalls (tr : List Event) : List (List SectorID) :=
  tr.filterMap fun e =>
    match e with
    | .CheckProvable _ tocheck => some tocheck
    | _ => none

/-- The proof-input lists a run handed to the proof engine, in order. -/
def proverCalls (tr : List Event) : List (List SectorInfo) :=
  tr.filterMap fun e =>
    match e with
    | .GenerateWindowPoSt _ sinfos _ => some sinfos
    | _ => none

/-- The deadlines a run reported to `failPost`, in order. -/
def failPostCalls (tr : List Event) : List DlineInfo :=
  tr.filterMap fun e =>
    match e with
    | .failPost d => some d
    | _ => none

/-! ## Go maps -/

/-- A Go `map[κ]ν`: an association list in which no key occurs twice. -/
structure GoMap (κ ν : Type) where
  entries : List (κ × ν)
  deriving DecidableEq

/-- Counterpart of `make(map[κ]ν)`. -/
def GoMap.empty {κ ν : Type} : GoMap κ ν := ⟨[]⟩

/-- Counterpart of `delete(m, k)`. -/
def GoMap.delete {κ ν : Type} [DecidableEq κ] (m : GoMap κ ν) (k : κ) : GoMap κ ν :=
  ⟨m.entries.filter fun e => e.1 ≠ k⟩

/-- Counterpart of `m[k] = v`. -/
def GoMap.set {κ ν : Type} [DecidableEq κ] (m : GoMap κ ν) (k : κ) (v : ν) : GoMap κ ν :=
  ⟨(m.delete k).entries ++ [(k, v)]⟩

/-- Counterpart of `v, found := m[k]`. -/
def GoMap.get? {κ ν : Type} [DecidableEq κ] (m : GoMap κ ν) (k : κ) : Option ν :=
  (m.entries.find? fun e => e.1 = k).map Prod.snd

/-- The keys of the map. -/
def GoMap.keys {κ ν : Type} (m : GoMap κ ν) : List κ := m.entries.map Prod.fst

/-! ## Chain state as the file reads it -/

/-- Counterpart of `miner.Partition` as the file uses it: three accessor
methods with an `error` result and the two members `Recoveries`, `Sectors`
that `runPost` reads directly. -/
structure Partition where
  ActiveSectors : Except Error BitField
  FaultySectors : Except Error BitField
  RecoveringSectors : Except Error BitField
  Recoveries : BitField
  Sectors : BitField

/-- Counterpart of `miner.Deadline`: `ForEachPartition` hands the partitions
to its callback in index order, or fails. -/
structure Deadline where
  ForEachPartition : Except Error (List Partition)

/-- Counterpart of `miner.State`. -/
structure MinerState where
  LoadDeadline : Nat → Except Error Deadline

/-- Counterpart of `miner.PoStPartition`. -/
structure PoStPartition where
  Index : Nat
  Skipped : BitField
  deriving DecidableEq

/-- Counterpart of `miner.SubmitWindowedPoStParams`. -/
structure SubmitWindowedPoStParams where
  Deadline : Nat
  Partitions : List PoStPartition
  Proofs : List Bytes
  ChainCommitEpoch : ChainEpoch
  ChainCommitRand : Randomness
  deriving DecidableEq

/-- Counterpart of `miner.RecoveryDeclaration`. -/
structure RecoveryDeclaration where
  Deadline : Nat
  Partition : Nat
  Sectors : BitField
  deriving DecidableEq

/-- Counterpart of `miner.FaultDeclaration`. -/
structure FaultDeclaration where
  Deadline : Nat
  Partition : Nat
  Sectors : BitField
  deriving DecidableEq

/-- The three parameter structures handed to `actors.SerializeParams`. -/
inductive MethodParams where
  | DeclareFaultsRecovered (Recoveries : List RecoveryDeclaration)
  | DeclareFaults (Faults : List FaultDeclaration)
  | SubmitWindowedPoSt (p : SubmitWindowedPoStParams)
  deriving DecidableEq

/-- Address purposes of `AddressFor`; the file only uses `PoStAddr`. -/
inductive AddrUse where
  | PoStAddr
  deriving DecidableEq, Repr

/-- The scheduler `s *WindowPoStScheduler` with its collaborators. -/
structure WindowPoStScheduler where
  /-- Field `s.actor`. -/
  actor : Address
  /-- Field `s.worker`. -/
  worker : Address
  /-- Field `s.feeCfg.MaxWindowPoStGasFee`. -/
  MaxWindowPoStGasFee : TokenAmount
  /-- Result of `s.proofType.RegisteredSealProof()`. -/
  RegisteredSealProof : Except Error abi.RegisteredSealProof
  /-- Function `address.IDFromAddress`. -/
  IDFromAddress : Address → Except Error ActorID
  /-- The provability oracle `s.faultTracker.CheckProvable`: returns the bad sectors. -/
  CheckProvable : abi.RegisteredSealProof → List SectorID → Except Error (List SectorID)
  /-- Order in which `range` visits the keys of a map with the given keys. -/
  rangeOrder : List SectorID → List SectorID
  /-- Chain API `StateMinerSectors(actor, filter, false, tsk)`. -/
  StateMinerSectors : Address → BitField → TipSetKey → Except Error (List ChainSectorInfo)
  /-- Chain API `StateMinerInfo(actor, EmptyTSK)`; the info is kept abstract. -/
  StateMinerInfo : Address → Except Error Nat
  /-- Chain API `GasEstimateMessageGas(msg, spec, EmptyTSK)`. -/
  GasEstimateMessageGas : Message → MessageSendSpec → Except Error Message
  /-- Method `msg.RequiredFunds()` of `types.Message`. -/
  RequiredFunds : Message → TokenAmount
  /-- Function `AddressFor(ctx, api, mi, use, minFunds)`. -/
  AddressFor : Nat → AddrUse → TokenAmount → Except Error Address
  /-- Function `actors.SerializeParams`. -/
  SerializeParams : MethodParams → Except Error Bytes
  /-- Chain API `MpoolPushMessage`: returns the CID of the signed message. -/
  MpoolPushMessage : Message → MessageSendSpec → Except Error CID
  /-- Chain API `StateWaitMsg`: returns the exit code of the receipt. -/
  StateWaitMsg : CID → Except Error Int
  /-- Chain API `StateGetActor(actor, tsk)`; the actor is kept abstract. -/
  StateGetActor : Address → TipSetKey → Except Error Nat
  /-- Function `miner.Load(store, act)`. -/
  minerLoad : Nat → Except Error MinerState
  /-- Method `s.actor.MarshalCBOR`. -/
  MarshalCBOR : Address → Except Error Bytes
  /-- Chain API `ChainGetRandomnessFromBeacon(tsk, WindowedPoStChallengeSeed, epoch, entropy)`. -/
  ChainGetRandomnessFromBeacon : TipSetKey → ChainEpoch → Bytes → Except Error Randomness
  /-- Chain API `ChainGetRandomnessFromTickets(tsk, PoStChainCommit, epoch, nil)`. -/
  ChainGetRandomnessFromTickets : TipSetKey → ChainEpoch → Except Error Randomness
  /-- The proof engine `s.prover.GenerateWindowPoSt`: proofs and skipped sectors. -/
  GenerateWindowPoSt :
    ActorID → List SectorInfo → Randomness → Except Error (List Bytes × List SectorID)

/-! ## `checkSectors` (lines 73-116) -/

/-- The callback of `check.ForEach` at lines 86-95, applied to the bits in
order: it appends to `tocheck` and inserts into the map `sectors`. -/
def checkSectors.collect (mid : ActorID) :
    List Nat → GoMap SectorID Unit → List SectorID → GoMap SectorID Unit × List SectorID
  | [], sectors, tocheck => (sectors, tocheck)
  | snum :: rest, sectors, tocheck =>
      let s : SectorID := { Miner := mid, Number := snum }
      checkSectors.collect mid rest (sectors.set s ()) (tocheck ++ [s])

/-- Function `checkSectors`. -/
def checkSectors (s : WindowPoStScheduler) (check : BitField) : Run BitField := do
  let spt ← Run.ofExcept (wrapErr "getting seal proof type" s.RegisteredSealProof)
  let mid ← Run.ofExcept (s.IDFromAddress s.actor)
  let (sectors, tocheck) := checkSectors.collect mid check.ForEach GoMap.empty []
  let bad ← Run.call (.CheckProvable spt tocheck)
    (wrapErr "checking provable sectors" (s.CheckProvable spt tocheck))
  let sectors := bad.foldl (fun m id => m.delete id) sectors
  let sbf := (s.rangeOrder sectors.keys).foldl (fun sbf id => sbf.Set id.Number) BitField.New
  pure sbf

/-! ## `sectorsForProof` (lines 480-518) -/

/-- The `SectorInfo` built from one looked-up sector (lines 490-494 and 498-502). -/
def sectorsForProof.info (sector : ChainSectorInfo) : SectorInfo :=
  { SectorNumber := sector.ID
    SealedCID := sector.Info.SealedCID
    SealProof := sector.Info.SealProof }

/-- Function `sectorsForProof`. -/
def sectorsForProof (s : WindowPoStScheduler) (goodSectors allSectors : BitField)
    (ts : TipSet) : Except Error (List SectorInfo) :=
  match s.StateMinerSectors s.actor goodSectors ts.Key with
  | .error err => .error err
  | .ok sset =>
    match sset with
    | [] => .ok []
    | sset0 :: _ =>
      let substitute := sectorsForProof.info sset0
      let sectorByID : GoMap Nat SectorInfo :=
        sset.foldl (fun m sector => m.set sector.ID (sectorsForProof.info sector)) GoMap.empty
      let proofSectors : List SectorInfo :=
        allSectors.ForEach.foldl
          (fun proofSectors sectorNo =>
            match sectorByID.get? sectorNo with
            | some info => proofSectors ++ [info]
            | none => proofSectors ++ [substitute])
          []
      .ok proofSectors

/-! ## `setSender` (lines 564-592) -/

/-- Function `setSender`; the result is the message `*msg` after the call. -/
def setSender (s : WindowPoStScheduler) (msg : Message) (spec : MessageSendSpec) : Message :=
  match s.StateMinerInfo s.actor with
  | .error _ => { msg with From := s.worker }
  | .ok mi =>
    match s.GasEstimateMessageGas msg spec with
    | .error _ => { msg with From := s.worker }
    | .ok gm =>
      let msg := gm
      let minFunds := s.RequiredFunds msg + msg.Value
      match s.AddressFor mi .PoStAddr minFunds with
      | .error _ => { msg with From := s.worker }
      | .ok pa => { msg with From := pa }

/-! ## `checkNextRecoveries` (lines 118-215) -/

/-- The loop of lines 128-173 from partition `partIdx` on; the state is
`params.Recoveries` and the counter `faulty`. -/
def checkNextRecoveries.loop (s : WindowPoStScheduler) (dlIdx : Nat) :
    List Partition → Nat → List RecoveryDeclaration → Nat →
      Run (List RecoveryDeclaration × Nat)
  | [], _, recoveries, faulty => pure (recoveries, faulty)
  | partition :: rest, partIdx, recoveries, faulty => do
    let faults ← Run.ofExcept (wrapErr "getting faults" partition.FaultySectors)
    let recovering ← Run.ofExcept (wrapErr "getting recovering" partition.RecoveringSectors)
    let unrecovered ← Run.ofExcept
      (wrapErr "subtracting recovered set from fault set" (SubtractBitField faults recovering))
    let uc ← Run.ofExcept (wrapErr "counting unrecovered sectors" unrecovered.Count)
    if uc = 0 then
      checkNextRecoveries.loop s dlIdx rest (partIdx + 1) recoveries faulty
    else do
      let faulty := (faulty + uc) % 2 ^ 64
      let recovered ← Run.wrap "checking unrecovered sectors" (checkSectors s unrecovered)
      let recoveredCount ← Run.ofExcept (wrapErr "counting recovered sectors" recovered.Count)
      if recoveredCount = 0 then
        checkNextRecoveries.loop s dlIdx rest (partIdx + 1) recoveries faulty
      else
        checkNextRecoveries.loop s dlIdx rest (partIdx + 1)
          (recoveries ++ [{ Deadline := dlIdx, Partition := partIdx, Sectors := recovered }])
          faulty

/-- Function `checkNextRecoveries`. -/
def checkNextRecoveries (s : WindowPoStScheduler) (dlIdx : Nat)
    (partitions : List Partition) : Run Unit := do
  let (recoveries, _) ← checkNextRecoveries.loop s dlIdx partitions 0 [] 0
  if recoveries.length = 0 then
    pure ()
  else do
    let enc ← Run.ofExcept
      (wrapErr "could not serialize declare recoveries parameters"
        (s.SerializeParams (.DeclareFaultsRecovered recoveries)))
    let msg : Message :=
      { To := s.actor, From := s.worker, Method := .DeclareFaultsRecovered, Params := enc,
        Value := 0, Nonce := 0, GasLimit := 0, GasFeeCap := 0, GasPremium := 0 }
    let spec : MessageSendSpec := { MaxFee := s.MaxWindowPoStGasFee }
    let msg := setSender s msg spec
    let spec2 : MessageSendSpec := { MaxFee := s.MaxWindowPoStGasFee }
    let sm ← Run.call (.MpoolPushMessage msg spec2)
      (wrapErr "pushing message to mpool" (s.MpoolPushMessage msg spec2))
    let exitCode ← Run.call (.StateWaitMsg sm)
      (wrapErr "declare faults recovered wait error" (s.StateWaitMsg sm))
    if exitCode ≠ 0 then
      Run.fail (.errorf "declare faults recovered wait non-0 exit code")
    else
      pure ()

/-! ## `checkNextFaults` (lines 217-299)

The range clause at line 227 is `for _, partition := range partitions`: it
binds no index.  The identifier `partIdx` at line 256 is therefore not a
variable of the function; it is taken as the parameter `partIdx`, one value
for the whole call. -/

/-- The loop of lines 227-259; the state is `params.Faults` and the counter `bad`. -/
def checkNextFaults.loop (s : WindowPoStScheduler) (partIdx : Nat) (dlIdx : Nat) :
    List Partition → List FaultDeclaration → Nat → Run (List FaultDeclaration × Nat)
  | [], faults, bad => pure (faults, bad)
  | partition :: rest, faults, bad => do
    let toCheck ← Run.ofExcept (wrapErr "getting active sectors" partition.ActiveSectors)
    let good ← Run.wrap "checking sectors" (checkSectors s toCheck)
    let faulty ← Run.ofExcept
      (wrapErr "calculating faulty sector set" (SubtractBitField toCheck good))
    let c ← Run.ofExcept (wrapErr "counting faulty sectors" faulty.Count)
    if c = 0 then
      checkNextFaults.loop s partIdx dlIdx rest faults bad
    else
      checkNextFaults.loop s partIdx dlIdx rest
        (faults ++ [{ Deadline := dlIdx, Partition := partIdx, Sectors := faulty }])
        ((bad + c) % 2 ^ 64)

/-- Function `checkNextFaults`. -/
def checkNextFaults (s : WindowPoStScheduler) (partIdx : Nat) (dlIdx : Nat)
    (partitions : List Partition) : Run Unit := do
  let (faults, _) ← checkNextFaults.loop s partIdx dlIdx partitions [] 0
  if faults.length = 0 then
    pure ()
  else do
    let enc ← Run.ofExcept
      (wrapErr "could not serialize declare faults parameters"
        (s.SerializeParams (.DeclareFaults faults)))
    let msg : Message :=
      { To := s.actor, From := s.worker, Method := .DeclareFaults, Params := enc,
        Value := 0, Nonce := 0, GasLimit := 0, GasFeeCap := 0, GasPremium := 0 }
    let spec : MessageSendSpec := { MaxFee := s.MaxWindowPoStGasFee }
    let msg := setSender s msg spec
    let sm ← Run.call (.MpoolPushMessage msg spec)
      (wrapErr "pushing message to mpool" (s.MpoolPushMessage msg spec))
    let exitCode ← Run.call (.StateWaitMsg sm)
      (wrapErr "declare faults wait error" (s.StateWaitMsg sm))
    if exitCode ≠ 0 then
      Run.fail (.errorf "declare faults wait non-0 exit code")
    else
      pure ()

/-! ## `submitPost` (lines 520-562) -/

/-- Function `submitPost`.  The goroutine of lines 547-559 only waits for the
receipt and logs; it is not part of the trace. -/
def submitPost (s : WindowPoStScheduler) (proof : SubmitWindowedPoStParams) : Run Unit := do
  let enc ← Run.ofExcept
    (wrapErr "could not serialize submit post parameters"
      (s.SerializeParams (.SubmitWindowedPoSt proof)))
  let msg : Message :=
    { To := s.actor, From := s.worker, Method := .SubmitWindowedPoSt, Params := enc,
      Value := 1000, Nonce := 0, GasLimit := 0, GasFeeCap := 0, GasPremium := 0 }
  let spec : MessageSendSpec := { MaxFee := s.MaxWindowPoStGasFee }
  let msg := setSender s msg spec
  let _sm ← Run.call (.MpoolPushMessage msg spec)
    (wrapErr "pushing message to mpool" (s.MpoolPushMessage msg spec))
  pure ()

/-! ## `runPost` (lines 301-478) -/

/-- Modelled from the spec: the identifier `apppend` of line 366 is declared
nowhere in the file; by section 4.3 of the specification the assembler walks
the partitions of the deadline in index order, so the callback of
`ForEachPartition` adds each partition at the end of the list. -/
def apppend (partitions : List Partition) (part : Partition) : List Partition :=
  partitions ++ [part]

/-- The variables that the loop of lines 383-430 updates. -/
structure runPost.Vars where
  params : SubmitWindowedPoStParams
  sinfos : List SectorInfo
  sidToPart : GoMap SectorNumber Nat
  skipCount : Nat
  deriving DecidableEq

/-- The variables as lines 373-381 set them up before the loop. -/
def runPost.init (di : DlineInfo) : runPost.Vars :=
  { params :=
      { Deadline := di.Index, Partitions := [], Proofs := [],
        ChainCommitEpoch := 0, ChainCommitRand := [] }
    sinfos := []
    sidToPart := GoMap.empty
    skipCount := 0 }

/-- The loop of lines 383-430 from partition `partIdx` on. -/
def runPost.loop (s : WindowPoStScheduler) (ts : TipSet) :
    List Partition → Nat → runPost.Vars → Run runPost.Vars
  | [], _, v => pure v
  | partition :: rest, partIdx, v => do
    let toProve ← Run.ofExcept (wrapErr "getting active sectors" partition.ActiveSectors)
    let toProve ← Run.ofExcept
      (wrapErr "adding recoveries to set of sectors to prove"
        (MergeBitFields toProve partition.Recoveries))
    let good ← Run.wrap "checking sectors to skip" (checkSectors s toProve)
    let skipped ← Run.ofExcept (wrapErr "toProve - good" (SubtractBitField toProve good))
    let sc ← Run.ofExcept (wrapErr "getting skipped sector count" skipped.Count)
    let skipCount := (v.skipCount + sc) % 2 ^ 64
    let ssi ← Run.ofExcept
      (wrapErr "getting sorted sector info" (sectorsForProof s good partition.Sectors ts))
    if ssi.length = 0 then
      runPost.loop s ts rest (partIdx + 1) { v with skipCount := skipCount }
    else
      runPost.loop s ts rest (partIdx + 1)
        { params :=
            { v.params with
              Partitions := v.params.Partitions ++ [{ Index := partIdx, Skipped := skipped }] }
          sinfos := v.sinfos ++ ssi
          sidToPart := ssi.foldl (fun m si => m.set si.SectorNumber partIdx) v.sidToPart
          skipCount := skipCount }

/-- The loop of lines 461-463: every sector the engine skipped is set in
`params.Partitions[sidToPart[sector.Number]].Skipped`.  A key that is not in
`sidToPart` reads as `0`; an index outside the slice panics. -/
def runPost.applySkipped (sidToPart : GoMap SectorNumber Nat) :
    List SectorID → List PoStPartition → Outcome (List PoStPartition)
  | [], parts => .ok parts
  | sector :: rest, parts =>
    let i := (sidToPart.get? sector.Number).getD 0
    match parts.get? i with
    | none => .panic "index out of range"
    | some entry =>
      runPost.applySkipped sidToPart rest
        (parts.set i { entry with Skipped := entry.Skipped.Set sector.Number })

/-- The goroutine of lines 316-347: declarations for the deadline two ahead.
It runs beside the main path and only logs its errors.  The first argument is
the identifier `partIdx` of `checkNextFaults`. -/
def runPost.declareNext (s : WindowPoStScheduler) (partIdx : Nat) (di : DlineInfo)
    (mas : MinerState) : Run Unit :=
  if di.WPoStPeriodDeadlines = 0 then
    ⟨[], .panic "integer divide by zero"⟩
  else
    let declDeadline := ((di.Index + 2) % 2 ^ 64) % di.WPoStPeriodDeadlines
    match mas.LoadDeadline declDeadline with
    | .error _ => pure ()
    | .ok dl =>
      match dl.ForEachPartition with
      | .error _ => pure ()
      | .ok parts =>
        let partitions := parts.foldl (fun partitions part => partitions ++ [part]) []
        let r1 := checkNextRecoveries s declDeadline partitions
        match r1.out with
        | .panic msg => ⟨r1.trace, .panic msg⟩
        | _ =>
          let r2 := checkNextFaults s partIdx declDeadline partitions
          match r2.out with
          | .panic msg => ⟨r1.trace ++ r2.trace, .panic msg⟩
          | _ => ⟨r1.trace ++ r2.trace, .ok ()⟩

/-- Function `runPost`, the path of the calling goroutine.  The goroutine
started at line 316 is `runPost.declareNext`. -/
def runPost (s : WindowPoStScheduler) (di : DlineInfo) (ts : TipSet) :
    Run SubmitWindowedPoStParams := do
  let act ← Run.ofExcept (wrapErr "resolving actor" (s.StateGetActor s.actor ts.Key))
  let mas ← Run.ofExcept (wrapErr "getting miner state" (s.minerLoad act))
  let buf ← Run.ofExcept
    (wrapErr "failed to marshal address to cbor" (s.MarshalCBOR s.actor))
  let rand ← Run.ofExcept
    (wrapErr "failed to get chain randomness for windowPost"
      (s.ChainGetRandomnessFromBeacon ts.Key di.Challenge buf))
  let dl ← Run.ofExcept (wrapErr "loading deadline" (mas.LoadDeadline di.Index))
  let parts ← Run.ofExcept (wrapErr "loading partitions" dl.ForEachPartition)
  let partitions := parts.foldl apppend []
  let v ← runPost.loop s ts partitions 0 (runPost.init di)
  if v.sinfos.length = 0 then
    Run.fail .errNoPartitions
  else do
    let mid ← Run.ofExcept (s.IDFromAddress s.actor)
    let (postOut, postSkipped) ← Run.call (.GenerateWindowPoSt mid v.sinfos rand)
      (wrapErr "running post failed" (s.GenerateWindowPoSt mid v.sinfos rand))
    if postOut.length = 0 then
      Run.fail (.errorf "received proofs back from generate window post")
    else do
      let params := { v.params with Proofs := postOut }
      let partitions ← (⟨[], runPost.applySkipped v.sidToPart postSkipped params.Partitions⟩ :
        Run (List PoStPartition))
      let params := { params with Partitions := partitions }
      let commEpoch := di.Open
      let commRand ← Run.ofExcept
        (wrapErr "failed to get chain randomness for windowPost"
          (s.ChainGetRandomnessFromTickets ts.Key commEpoch))
      pure { params with ChainCommitEpoch := commEpoch, ChainCommitRand := commRand }

/-! ## `doPost` (lines 43-71) -/

/-- Function `doPost`: the body of the goroutine it starts (lines 50-69). -/
def doPost (s : WindowPoStScheduler) (deadline : DlineInfo) (ts : TipSet) : Run Unit :=
  let r := runPost s deadline ts
  match r.out with
  | .panic msg => ⟨r.trace, .panic msg⟩
  | .err .errNoPartitions => ⟨r.trace, .ok ()⟩
  | .ok proof =>
    let r2 := submitPost s proof
    match r2.out with
    | .panic msg => ⟨r.trace ++ r2.trace, .panic msg⟩
    | .err _ => ⟨r.trace ++ r2.trace ++ [.failPost deadline], .ok ()⟩
    | .ok _ => ⟨r.trace ++ r2.trace, .ok ()⟩
  | .err _ => ⟨r.trace ++ [.failPost deadline], .ok ()⟩

/-! ## The declarations as the specification words them -/

/-- The sector sets of a partition whose accessors succeed. -/
structure PartitionSets where
  active : BitField
  faulty : BitField
  recovering : BitField
  sectors : BitField

/-- The partition with the given sets, every accessor succeeding. -/
def Partition.ofSets (p : PartitionSets) : Partition :=
  { ActiveSectors := .ok p.active
    FaultySectors := .ok p.faulty
    RecoveringSectors := .ok p.recovering
    Recoveries := p.recovering
    Sectors := p.sectors }

/-- The oracle query for a sector set: its sectors in ascending order, as
identifiers of miner `mid`. -/
def sectorIDs (mid : ActorID) (bf : BitField) : List SectorID :=
  bf.ForEach.map fun n => { Miner := mid, Number := n }

/-- Recovery declarations in the words of the specification (section 4.2):
for partition `i`, `R_i` is `faulty_i − recovering_i` minus the sectors the
oracle reports unprovable; one declaration per partition with `R_i` not
empty, in partition order.  `answer` is the oracle's reply to a query. -/
def spec_recoveryDeclarations (mid : ActorID) (answer : List SectorID → List SectorID)
    (dlIdx : Nat) (ps : List PartitionSets) : List RecoveryDeclaration :=
  ps.enum.filterMap fun ip =>
    let unrecovered := ip.2.faulty \ ip.2.recovering
    let R := unrecovered.filter fun n =>
      (⟨mid, n⟩ : SectorID) ∉ answer (sectorIDs mid unrecovered)
    if R = ∅ then none else some { Deadline := dlIdx, Partition := ip.1, Sectors := R }

/-- Fault declarations in the words of the specification (section 4.2): for
partition `i`, `F_i` is the set of active sectors the oracle reports
unprovable; one declaration per partition with `F_i` not empty, in partition
order. -/
def spec_faultDeclarations (mid : ActorID) (answer : List SectorID → List SectorID)
    (dlIdx : Nat) (ps : List PartitionSets) : List FaultDeclaration :=
  ps.enum.filterMap fun ip =>
    let F := ip.2.active.filter fun n =>
      (⟨mid, n⟩ : SectorID) ∈ answer (sectorIDs mid ip.2.active)
    if F = ∅ then none else some { Deadline := dlIdx, Partition := ip.1, Sectors := F }

/-- A trace that holds nothing but queries to the provability oracle. -/
def onlyOracle (tr : List Event) : Prop :=
  ∀ e ∈ tr, ∃ spt tocheck, e = Event.CheckProvable spt tocheck

/-! ## Concrete schedulers used to instantiate the theorems -/

/-- A scheduler whose collaborators all succeed: the oracle finds nothing
bad, every requested sector resolves, the engine returns one proof and skips
nothing.  Maps are ranged over in reverse insertion order. -/
def exampleScheduler : WindowPoStScheduler where
  actor := 1000
  worker := 2000
  MaxWindowPoStGasFee := 50
  RegisteredSealProof := .ok 3
  IDFromAddress := fun a => .ok a
  CheckProvable := fun _ _ => .ok []
  rangeOrder := fun keys => keys.reverse
  StateMinerSectors := fun _ filter _ =>
    .ok (filter.ForEach.map fun n => { Info := { SealProof := 3, SealedCID := 100 + n }, ID := n })
  StateMinerInfo := fun _ => .ok 0
  GasEstimateMessageGas := fun msg _ =>
    .ok { msg with GasLimit := 10, GasFeeCap := 2, GasPremium := 1 }
  RequiredFunds := fun msg => msg.GasFeeCap * msg.GasLimit
  AddressFor := fun _ _ _ => .ok 3000
  SerializeParams := fun _ => .ok []
  MpoolPushMessage := fun _ _ => .ok 77
  StateWaitMsg := fun _ => .ok 0
  StateGetActor := fun _ _ => .ok 0
  minerLoad := fun _ => .ok { LoadDeadline := fun _ => .ok { ForEachPartition := .ok [] } }
  MarshalCBOR := fun a => .ok [a]
  ChainGetRandomnessFromBeacon := fun _ _ _ => .ok [1]
  ChainGetRandomnessFromTickets := fun _ _ => .ok [2]
  GenerateWindowPoSt := fun _ _ _ => .ok ([[9]], [])

/-- An oracle answer with a duplicate, a sector number that was not asked
about and a sector of another miner. -/
def noisyBad : List SectorID :=
  [⟨1000, 2⟩, ⟨1000, 2⟩, ⟨1000, 9⟩, ⟨5, 1⟩]

/-- The example scheduler with the oracle answering `noisyBad`. -/
def noisyScheduler : WindowPoStScheduler :=
  { exampleScheduler with CheckProvable := fun _ _ => .ok noisyBad }

/-- The example scheduler with an oracle that fails on every query. -/
def brokenOracleScheduler : WindowPoStScheduler :=
  { exampleScheduler with CheckProvable := fun _ _ => .error (.external 1) }

/-- The example scheduler whose sector lookup resolves sector 10 only. -/
def tenOnlyScheduler : WindowPoStScheduler :=
  { exampleScheduler with
    StateMinerSectors := fun _ _ _ =>
      .ok [{ Info := { SealProof := 3, SealedCID := 110 }, ID := 10 }] }

/-- A tipset for the examples. -/
def exampleTipSet : TipSet := { Key := 1, Height := 100 }

/-- The example scheduler with a failing gas estimation. -/
def noGasScheduler : WindowPoStScheduler :=
  { exampleScheduler with GasEstimateMessageGas := fun _ _ => .error (.external 2) }

/-- A draft message for the examples. -/
def exampleMessage : Message :=
  { To := 1000, From := 2000, Nonce := 0, Value := 0, GasLimit := 0, GasFeeCap := 0,
    GasPremium := 0, Method := .DeclareFaults, Params := [] }

/-- The example scheduler with an oracle that reports every queried sector bad. -/
def allBadScheduler : WindowPoStScheduler :=
  { exampleScheduler with CheckProvable := fun _ tocheck => .ok tocheck }

/-- The partition of the recovery example: faulty `{5, 6}`, recovering `{5}`. -/
def recoveryExample : PartitionSets :=
  { active := ∅, faulty := {5, 6}, recovering := {5}, sectors := {5, 6} }

/-- The example scheduler with an oracle that reports sector number 2 bad
whenever it is asked about it. -/
def twoBadScheduler : WindowPoStScheduler :=
  { exampleScheduler with
    CheckProvable := fun _ tocheck => .ok (tocheck.filter fun id => id.Number = 2) }

/-- Two partitions that both hold the bad sector number 2. -/
def faultExample : List PartitionSets :=
  [{ active := {1, 2, 3}, faulty := ∅, recovering := ∅, sectors := {1, 2, 3} },
   { active := {2, 4}, faulty := ∅, recovering := ∅, sectors := {2, 4} }]

/-- A deadline descriptor for the examples. -/
def exampleDeadline : DlineInfo :=
  { Index := 3, Open := 50, Challenge := 40, WPoStPeriodDeadlines := 48 }

/-- The miner state whose every deadline holds the given partitions. -/
def minerStateOf (ps : List PartitionSets) : MinerState :=
  { LoadDeadline := fun _ => .ok { ForEachPartition := .ok (ps.map Partition.ofSets) } }

/-- Two partitions, one with sectors `{1, 2}` and one without sectors. -/
def unresolvedPartitions : List PartitionSets :=
  [{ active := {1, 2}, faulty := ∅, recovering := ∅, sectors := {1, 2} },
   { active := ∅, faulty := ∅, recovering := ∅, sectors := ∅ }]

/-- A scheduler whose deadline yields no proof input: the sector lookup
returns no sector for either partition. -/
def nothingToProveScheduler : WindowPoStScheduler :=
  { exampleScheduler with
    StateMinerSectors := fun _ _ _ => .ok []
    minerLoad := fun _ => .ok (minerStateOf unresolvedPartitions) }

/-- One partition with the single sector 1. -/
def singlePartition : List PartitionSets :=
  [{ active := {1}, faulty := ∅, recovering := ∅, sectors := {1} }]

/-- A scheduler whose proof engine returns no proof and no error. -/
def emptyProofScheduler : WindowPoStScheduler :=
  { exampleScheduler with
    minerLoad := fun _ => .ok (minerStateOf singlePartition)
    GenerateWindowPoSt := fun _ _ _ => .ok ([], []) }

/-- Three partitions: the first has no sectors, the second holds sector 7,
the third sector 9. -/
def gapPartitions : List PartitionSets :=
  [{ active := ∅, faulty := ∅, recovering := ∅, sectors := ∅ },
   { active := {7}, faulty := ∅, recovering := ∅, sectors := {7} },
   { active := {9}, faulty := ∅, recovering := ∅, sectors := {9} }]

/-- A scheduler over `gapPartitions` whose proof engine skips sector 7. -/
def skipSevenScheduler : WindowPoStScheduler :=
  { exampleScheduler with
    minerLoad := fun _ => .ok (minerStateOf gapPartitions)
    GenerateWindowPoSt := fun _ _ _ => .ok ([[9]], [⟨1000, 7⟩]) }

/-- A scheduler over `gapPartitions` whose proof engine skips sector 9. -/
def skipNineScheduler : WindowPoStScheduler :=
  { exampleScheduler with
    minerLoad := fun _ => .ok (minerStateOf gapPartitions)
    GenerateWindowPoSt := fun _ _ _ => .ok ([[9]], [⟨1000, 9⟩]) }

/-! ## Lemmas on the run monad -/

@[simp] theorem Run.bind_eq {α β : Type} (m : Run α) (f : α → Run β) :
    (m >>= f) = Run.bind m f := rfl

@[simp] theorem Run.pure_eq {α : Type} (a : α) : (Pure.pure a : Run α) = ⟨[], .ok a⟩ := rfl

@[simp] theorem Run.bind_mk_ok {α β : Type} (tr : List Event) (a : α) (f : α → Run β) :
    Run.bind ⟨tr, .ok a⟩ f = ⟨tr ++ (f a).trace, (f a).out⟩ := rfl

@[simp] theorem Run.bind_mk_err {α β : Type} (tr : List Event) (e : Error) (f : α → Run β) :
    Run.bind ⟨tr, .err e⟩ f = ⟨tr, .err e⟩ := rfl

@[simp] theorem Run.bind_mk_panic {α β : Type} (tr : List Event) (msg : String)
    (f : α → Run β) : Run.bind ⟨tr, .panic msg⟩ f = ⟨tr, .panic msg⟩ := rfl

@[simp] theorem Run.ofExcept_ok {α : Type} (a : α) :
    Run.ofExcept (.ok a : Except Error α) = ⟨[], .ok a⟩ := rfl

@[simp] theorem Run.ofExcept_error {α : Type} (e : Error) :
    Run.ofExcept (.error e : Except Error α) = ⟨[], .err e⟩ := rfl

@[simp] theorem Run.call_ok {α : Type} (ev : Event) (a : α) :
    Run.call ev (.ok a : Except Error α) = ⟨[ev], .ok a⟩ := rfl

@[simp] theorem Run.call_error {α : Type} (ev : Event) (e : Error) :
    Run.call ev (.error e : Except Error α) = ⟨[ev], .err e⟩ := rfl

@[simp] theorem wrapErr_ok {α : Type} (msg : String) (a : α) :
    wrapErr msg (.ok a : Except Error α) = .ok a := rfl

@[simp] theorem wrapErr_error {α : Type} (msg : String) (e : Error) :
    wrapErr msg (.error e : Except Error α) = .error (.wrap msg e) := rfl

@[simp] theorem Run.wrap_mk_ok {α : Type} (msg : String) (tr : List Event) (a : α) :
    Run.wrap msg (⟨tr, .ok a⟩ : Run α) = ⟨tr, .ok a⟩ := rfl

@[simp] theorem Run.wrap_mk_err {α : Type} (msg : String) (tr : List Event) (e : Error) :
    Run.wrap msg (⟨tr, .err e⟩ : Run α) = ⟨tr, .err (.wrap msg e)⟩ := rfl

/-! ## Lemmas on bit fields -/

theorem BitField.mem_ForEach (bf : BitField) (n : Nat) : n ∈ bf.ForEach ↔ n ∈ bf := by
  unfold BitField.ForEach
  simp only [List.mem_filter, List.mem_range, decide_eq_true_eq, and_iff_right_iff_imp]
  intro h
  have : id n ≤ bf.sup id := Finset.le_sup h
  exact Nat.lt_succ_of_le this

theorem BitField.ForEach_sorted (bf : BitField) : bf.ForEach.Sorted (· < ·) := by
  unfold BitField.ForEach
  exact (List.sorted_lt_range _).filter _

theorem BitField.ForEach_nodup (bf : BitField) : bf.ForEach.Nodup :=
  (BitField.ForEach_sorted bf).nodup

theorem BitField.ForEach_toFinset (bf : BitField) : bf.ForEach.toFinset = bf := by
  ext n
  simp [BitField.mem_ForEach]

theorem BitField.length_ForEach (bf : BitField) : bf.ForEach.length = bf.card := by
  rw [← List.toFinset_card_of_nodup (BitField.ForEach_nodup bf), BitField.ForEach_toFinset]

/-- The iteration order of `ForEach` is the ascending listing of the set. -/
theorem BitField.ForEach_eq_sort (bf : BitField) :
    bf.ForEach = Finset.sort (· ≤ ·) bf := by
  apply List.eq_of_perm_of_sorted (r := (· ≤ ·))
  · rw [List.perm_ext_iff_of_nodup (BitField.ForEach_nodup bf) (Finset.sort_nodup _ _)]
    intro n
    simp [BitField.mem_ForEach]
  · exact (BitField.ForEach_sorted bf).le_of_lt
  · exact Finset.sort_sorted _ _

theorem BitField.ForEach_eq_nil (bf : BitField) : bf.ForEach = [] ↔ bf = ∅ := by
  constructor
  · intro h
    rw [← BitField.ForEach_toFinset bf, h]
    rfl
  · intro h
    subst h
    rfl

/-! ## Lemmas on Go maps -/

theorem GoMap.mem_keys_delete {κ ν : Type} [DecidableEq κ] (m : GoMap κ ν) (k x : κ) :
    x ∈ (m.delete k).keys ↔ x ∈ m.keys ∧ x ≠ k := by
  unfold GoMap.keys GoMap.delete
  simp only [List.mem_map, List.mem_filter, decide_eq_true_eq]
  constructor
  · rintro ⟨e, ⟨he, hne⟩, rfl⟩
    exact ⟨⟨e, he, rfl⟩, hne⟩
  · rintro ⟨⟨e, he, rfl⟩, hne⟩
    exact ⟨e, ⟨he, hne⟩, rfl⟩

theorem GoMap.mem_keys_set {κ ν : Type} [DecidableEq κ] (m : GoMap κ ν) (k x : κ) (v : ν) :
    x ∈ (m.set k v).keys ↔ x ∈ m.keys ∨ x = k := by
  have h := GoMap.mem_keys_delete m k x
  unfold GoMap.keys at h ⊢
  unfold GoMap.set
  simp only [List.map_append, List.mem_append, List.map_cons, List.map_nil,
    List.mem_singleton]
  rw [h]
  by_cases hx : x = k <;> simp [hx]

theorem GoMap.mem_keys_foldl_delete {κ ν : Type} [DecidableEq κ] (bad : List κ)
    (m : GoMap κ ν) (x : κ) :
    x ∈ (bad.foldl (fun m id => m.delete id) m).keys ↔ x ∈ m.keys ∧ x ∉ bad := by
  induction bad generalizing m with
  | nil => simp
  | cons b bad ih =>
    simp only [List.foldl_cons, List.mem_cons, not_or]
    rw [ih, GoMap.mem_keys_delete]
    tauto

/-! ## `checkSectors` -/

/-- The sector identifiers that `checkSectors` builds from a bit field, in
the order of `ForEach`. -/
theorem checkSectors_collect_spec (mid : ActorID) (bits : List Nat)
    (sectors : GoMap SectorID Unit) (tocheck : List SectorID) :
    (checkSectors.collect mid bits sectors tocheck).2
        = tocheck ++ bits.map (fun n => (⟨mid, n⟩ : SectorID)) ∧
      ∀ x, x ∈ (checkSectors.collect mid bits sectors tocheck).1.keys ↔
        x ∈ sectors.keys ∨ x ∈ bits.map (fun n => (⟨mid, n⟩ : SectorID)) := by
  induction bits generalizing sectors tocheck with
  | nil => simp [checkSectors.collect]
  | cons b bits ih =>
    obtain ⟨h1, h2⟩ := ih (sectors.set ⟨mid, b⟩ ()) (tocheck ++ [⟨mid, b⟩])
    refine ⟨?_, ?_⟩
    · simp only [checkSectors.collect, h1]
      simp
    · intro x
      simp only [checkSectors.collect]
      rw [h2, GoMap.mem_keys_set]
      simp only [List.map_cons, List.mem_cons]
      tauto

theorem mem_foldl_Set (order : List SectorID) (acc : BitField) (n : Nat) :
    n ∈ order.foldl (fun sbf id => sbf.Set id.Number) acc ↔
      n ∈ acc ∨ ∃ id ∈ order, id.Number = n := by
  induction order generalizing acc with
  | nil => simp
  | cons a order ih =>
    simp only [List.foldl_cons, List.mem_cons, exists_eq_or_imp]
    rw [ih]
    unfold BitField.Set
    rw [Finset.mem_insert]
    constructor
    · rintro ((h | h) | h)
      · exact Or.inr (Or.inl h.symm)
      · exact Or.inl h
      · exact Or.inr (Or.inr h)
    · rintro (h | h | h)
      · exact Or.inl (Or.inr h)
      · exact Or.inl (Or.inl h.symm)
      · exact Or.inr h

/-- The bit field that lines 104-113 build from the oracle answer. -/
theorem checkSectors_result_spec (s : WindowPoStScheduler) (mid : ActorID)
    (check : BitField) (bad : List SectorID)
    (horder : ∀ keys, (s.rangeOrder keys).Perm keys) :
    (s.rangeOrder
        (bad.foldl (fun m id => m.delete id)
          (checkSectors.collect mid check.ForEach GoMap.empty []).1).keys).foldl
        (fun sbf id => sbf.Set id.Number) BitField.New
      = check.filter (fun n => (⟨mid, n⟩ : SectorID) ∉ bad) := by
  ext n
  rw [mem_foldl_Set]
  simp only [BitField.New, Finset.not_mem_empty, false_or, Finset.mem_filter]
  constructor
  · rintro ⟨id, hid, rfl⟩
    rw [(horder _).mem_iff, GoMap.mem_keys_foldl_delete,
      (checkSectors_collect_spec mid check.ForEach GoMap.empty []).2] at hid
    obtain ⟨hk, hbad⟩ := hid
    simp only [GoMap.keys, GoMap.empty, List.map_nil, List.not_mem_nil, List.mem_map,
      false_or] at hk
    obtain ⟨m, hm, rfl⟩ := hk
    exact ⟨(BitField.mem_ForEach check m).1 hm, hbad⟩
  · rintro ⟨hn, hbad⟩
    refine ⟨⟨mid, n⟩, ?_, rfl⟩
    rw [(horder _).mem_iff, GoMap.mem_keys_foldl_delete,
      (checkSectors_collect_spec mid check.ForEach GoMap.empty []).2]
    refine ⟨Or.inr ?_, hbad⟩
    exact List.mem_map.2 ⟨n, (BitField.mem_ForEach check n).2 hn, rfl⟩

/-- The run of `checkSectors` when the oracle answers: one oracle call with
the candidates in ascending order, result candidates minus bad. -/
theorem checkSectors_run (s : WindowPoStScheduler) (check : BitField)
    (spt : abi.RegisteredSealProof) (mid : ActorID) (bad : List SectorID)
    (hspt : s.RegisteredSealProof = .ok spt) (hmid : s.IDFromAddress s.actor = .ok mid)
    (horder : ∀ keys, (s.rangeOrder keys).Perm keys)
    (hbad : s.CheckProvable spt (check.ForEach.map fun n => (⟨mid, n⟩ : SectorID)) = .ok bad) :
    checkSectors s check =
      ⟨[.CheckProvable spt (check.ForEach.map fun n => (⟨mid, n⟩ : SectorID))],
        .ok (check.filter (fun n => (⟨mid, n⟩ : SectorID) ∉ bad))⟩ := by
  have hc := (checkSectors_collect_spec mid check.ForEach GoMap.empty []).1
  simp only [List.nil_append] at hc
  have hr := checkSectors_result_spec s mid check bad horder
  unfold checkSectors
  simp only [hspt, hmid, Run.bind_eq, wrapErr_ok, Run.ofExcept_ok, Run.bind_mk_ok,
    List.nil_append, hc, hbad, Run.call_ok, Run.pure_eq, List.append_nil, hr]

/-- The run of `checkSectors` when the oracle fails. -/
theorem checkSectors_run_error (s : WindowPoStScheduler) (check : BitField)
    (spt : abi.RegisteredSealProof) (mid : ActorID) (e : Error)
    (hspt : s.RegisteredSealProof = .ok spt) (hmid : s.IDFromAddress s.actor = .ok mid)
    (hbad : s.CheckProvable spt (check.ForEach.map fun n => (⟨mid, n⟩ : SectorID))
      = .error e) :
    checkSectors s check =
      ⟨[.CheckProvable spt (check.ForEach.map fun n => (⟨mid, n⟩ : SectorID))],
        .err (.wrap "checking provable sectors" e)⟩ := by
  have hc := (checkSectors_collect_spec mid check.ForEach GoMap.empty []).1
  simp only [List.nil_append] at hc
  unfold checkSectors
  simp only [hspt, hmid, Run.bind_eq, wrapErr_ok, Run.ofExcept_ok, Run.bind_mk_ok,
    List.nil_append, hc, hbad, Run.call_error, wrapErr_error, Run.bind_mk_err]

/-- C4: when the seal-proof type and the actor id resolve and the oracle
returns the list `bad` without error, `checkSectors` on the candidates `C`
returns exactly the sector numbers `n` of `C` with `SectorID{mid, n}` not in
`bad`, a subset of `C`, whatever order the final `range` over the map takes. -/
theorem checkSectors_candidates_minus_bad (s : WindowPoStScheduler) (C : BitField)
    (spt : abi.RegisteredSealProof) (mid : ActorID) (bad : List SectorID)
    (hspt : s.RegisteredSealProof = .ok spt) (hmid : s.IDFromAddress s.actor = .ok mid)
    (horder : ∀ keys, (s.rangeOrder keys).Perm keys)
    (hbad : s.CheckProvable spt (C.ForEach.map fun n => (⟨mid, n⟩ : SectorID)) = .ok bad) :
    (checkSectors s C).out = .ok (C.filter (fun n => (⟨mid, n⟩ : SectorID) ∉ bad)) ∧
      C.filter (fun n => (⟨mid, n⟩ : SectorID) ∉ bad) ⊆ C := by
  rw [checkSectors_run s C spt mid bad hspt hmid horder hbad]
  exact ⟨rfl, Finset.filter_subset _ _⟩

/-- Instance of C4: candidates `{1,2,3}`, the oracle answers `noisyBad`;
the result is `{1,3}`. -/
theorem checkSectors_candidates_minus_bad_witness :
    (checkSectors noisyScheduler {1, 2, 3}).out = .ok {1, 3} ∧
      ({1, 3} : BitField) ⊆ {1, 2, 3} := by
  have h := checkSectors_candidates_minus_bad noisyScheduler {1, 2, 3} 3 1000 noisyBad rfl rfl
    (fun keys => List.reverse_perm keys) rfl
  have e : (({1, 2, 3} : BitField).filter (fun n => (⟨1000, n⟩ : SectorID) ∉ noisyBad))
      = {1, 3} := by decide
  rw [e] at h
  exact h

/-- C10, as the code behaves: an empty candidate bit field does not bypass the
oracle.  With an oracle that fails, `checkSectors` on the empty bit field
returns the wrapped error, not an empty bit field, and the trace holds one
oracle call with an empty sector list. -/
theorem checkSectors_empty_counterexample :
    (checkSectors brokenOracleScheduler ∅).out
        = .err (.wrap "checking provable sectors" (.external 1)) ∧
      oracleCalls (checkSectors brokenOracleScheduler ∅).trace = [[]] ∧
      ¬ ((checkSectors brokenOracleScheduler ∅).out = .ok ∅ ∧
          oracleCalls (checkSectors brokenOracleScheduler ∅).trace = []) := by
  decide

/-- C10 amended: for an empty candidate bit field, when the seal-proof type
and the actor id resolve, `checkSectors` calls the provability oracle exactly
once, with an empty sector list; when that call returns without error the
result is the empty bit field, and when it fails the result is its error. -/
theorem checkSectors_empty (s : WindowPoStScheduler) (spt : abi.RegisteredSealProof)
    (mid : ActorID)
    (hspt : s.RegisteredSealProof = .ok spt) (hmid : s.IDFromAddress s.actor = .ok mid)
    (horder : ∀ keys, (s.rangeOrder keys).Perm keys) :
    oracleCalls (checkSectors s ∅).trace = [[]] ∧
      (∀ bad, s.CheckProvable spt [] = .ok bad → (checkSectors s ∅).out = .ok ∅) ∧
      (∀ e, s.CheckProvable spt [] = .error e →
        (checkSectors s ∅).out = .err (.wrap "checking provable sectors" e)) := by
  have hnil : (∅ : BitField).ForEach.map (fun n => (⟨mid, n⟩ : SectorID)) = [] := rfl
  have hcalls : oracleCalls (checkSectors s ∅).trace = [[]] := by
    cases hq : s.CheckProvable spt [] with
    | error e =>
      rw [checkSectors_run_error s ∅ spt mid e hspt hmid (by rw [hnil]; exact hq)]
      rfl
    | ok bad =>
      rw [checkSectors_run s ∅ spt mid bad hspt hmid horder (by rw [hnil]; exact hq)]
      rfl
  refine ⟨hcalls, ?_, ?_⟩
  · intro bad hq
    rw [checkSectors_run s ∅ spt mid bad hspt hmid horder (by rw [hnil]; exact hq)]
    simp
  · intro e hq
    rw [checkSectors_run_error s ∅ spt mid e hspt hmid (by rw [hnil]; exact hq)]

/-- Instance of the amended C10 at the example scheduler. -/
theorem checkSectors_empty_witness :
    oracleCalls (checkSectors exampleScheduler ∅).trace = [[]] ∧
      (checkSectors exampleScheduler ∅).out = .ok ∅ := by
  have h := checkSectors_empty exampleScheduler 3 1000 rfl rfl
    (fun keys => List.reverse_perm keys)
  exact ⟨h.1, h.2.1 [] rfl⟩

/-! ## `sectorsForProof` -/

theorem GoMap.get?_set_self {κ ν : Type} [DecidableEq κ] (m : GoMap κ ν) (k : κ) (v : ν) :
    (m.set k v).get? k = some v := by
  unfold GoMap.get? GoMap.set GoMap.delete
  rw [List.find?_append]
  have h : (m.entries.filter fun e => e.1 ≠ k).find? (fun e => e.1 = k) = none := by
    rw [List.find?_eq_none]
    intro e he
    simp only [List.mem_filter, decide_eq_true_eq] at he
    simpa using he.2
  simp [h]

theorem GoMap.get?_set_ne {κ ν : Type} [DecidableEq κ] (m : GoMap κ ν) (k x : κ) (v : ν)
    (hx : x ≠ k) : (m.set k v).get? x = m.get? x := by
  unfold GoMap.get? GoMap.set GoMap.delete
  rw [List.find?_append]
  have h1 : [(k, v)].find? (fun e => decide (e.1 = x)) = none := by
    simp [List.find?, Ne.symm hx]
  have h2 : (m.entries.filter fun e => e.1 ≠ k).find? (fun e => decide (e.1 = x))
      = m.entries.find? (fun e => decide (e.1 = x)) := by
    induction m.entries with
    | nil => rfl
    | cons a l ih =>
      by_cases ha : a.1 = k
      · have hax : a.1 ≠ x := fun h => hx (h ▸ ha)
        rw [List.filter_cons_of_neg (by simpa using ha),
          List.find?_cons_of_neg _ (by simpa using hax), ih]
      · rw [List.filter_cons_of_pos (by simpa using ha)]
        by_cases hax : a.1 = x
        · rw [List.find?_cons_of_pos _ (by simpa using hax),
            List.find?_cons_of_pos _ (by simpa using hax)]
        · rw [List.find?_cons_of_neg _ (by simpa using hax),
            List.find?_cons_of_neg _ (by simpa using hax), ih]
  rw [h1, h2]
  simp

/-- The map `sectorByID` of lines 496-503 holds, for each number, the info of
the last looked-up sector with that number. -/
theorem sectorsForProof_sectorByID_get (sset : List ChainSectorInfo)
    (m : GoMap Nat SectorInfo) (n : Nat) :
    (sset.foldl (fun m sector => m.set sector.ID (sectorsForProof.info sector)) m).get? n
      = match sset.reverse.find? (fun sector => sector.ID = n) with
        | some sector => some (sectorsForProof.info sector)
        | none => m.get? n := by
  induction sset generalizing m with
  | nil => rfl
  | cons a rest ih =>
    rw [List.foldl_cons, ih, List.reverse_cons, List.find?_append]
    cases hr : rest.reverse.find? (fun sector => decide (sector.ID = n)) with
    | some sector => rfl
    | none =>
      by_cases ha : a.ID = n
      · subst ha
        simp [List.find?_cons, GoMap.get?_set_self]
      · simp [List.find?_cons, ha, GoMap.get?_set_ne _ _ _ _ (Ne.symm ha)]

theorem foldl_append_singleton {α β : Type} (f : α → β) (l : List α) (acc : List β) :
    l.foldl (fun acc a => acc ++ [f a]) acc = acc ++ l.map f := by
  induction l generalizing acc with
  | nil => simp
  | cons a l ih => simp [ih]

/-- Closed form of `sectorsForProof` for a lookup that returned `sset0 :: rest`. -/
theorem sectorsForProof_eq (s : WindowPoStScheduler) (goodSectors allSectors : BitField)
    (ts : TipSet) (sset0 : ChainSectorInfo) (rest : List ChainSectorInfo)
    (hlookup : s.StateMinerSectors s.actor goodSectors ts.Key = .ok (sset0 :: rest)) :
    sectorsForProof s goodSectors allSectors ts =
      .ok (allSectors.ForEach.map fun n =>
        match (sset0 :: rest).reverse.find? (fun sector => sector.ID = n) with
        | some sector => sectorsForProof.info sector
        | none => sectorsForProof.info sset0) := by
  unfold sectorsForProof
  simp only [hlookup]
  congr 1
  have hfun : (fun (proofSectors : List SectorInfo) (sectorNo : Nat) =>
      match ((sset0 :: rest).foldl
          (fun m sector => m.set sector.ID (sectorsForProof.info sector))
          (GoMap.empty : GoMap Nat SectorInfo)).get? sectorNo with
      | some info => proofSectors ++ [info]
      | none => proofSectors ++ [sectorsForProof.info sset0])
      = fun proofSectors sectorNo => proofSectors ++ [
          match (sset0 :: rest).reverse.find? (fun sector => sector.ID = sectorNo) with
          | some sector => sectorsForProof.info sector
          | none => sectorsForProof.info sset0] := by
    funext proofSectors sectorNo
    rw [sectorsForProof_sectorByID_get]
    cases (sset0 :: rest).reverse.find? (fun sector => decide (sector.ID = sectorNo)) <;> rfl
  rw [hfun, foldl_append_singleton]
  simp

/-- C2, as the code behaves: with provable set `{10}` and partition set
`{10, 11}`, both resolved as far as requested, `sectorsForProof` returns two
entries (sector 10 and the substitute for 11) although the provable set has
one sector. -/
theorem sectorsForProof_length_counterexample :
    sectorsForProof exampleScheduler {10} {10, 11} exampleTipSet
        = .ok [{ SealProof := 3, SectorNumber := 10, SealedCID := 110 },
               { SealProof := 3, SectorNumber := 10, SealedCID := 110 }] ∧
      ¬ (∃ proofSectors,
          sectorsForProof exampleScheduler {10} {10, 11} exampleTipSet = .ok proofSectors ∧
            proofSectors.length = ({10} : BitField).card) := by
  have h : sectorsForProof exampleScheduler {10} {10, 11} exampleTipSet
      = .ok [{ SealProof := 3, SectorNumber := 10, SealedCID := 110 },
             { SealProof := 3, SectorNumber := 10, SealedCID := 110 }] := by decide
  refine ⟨h, ?_⟩
  rintro ⟨proofSectors, h1, h2⟩
  rw [h] at h1
  injection h1 with h1
  subst h1
  revert h2
  decide

/-- C2 amended: when the sector lookup succeeds, the list returned by
`sectorsForProof` is empty if the lookup returned no sector, and otherwise
has as many entries as `allSectors` has sectors. -/
theorem sectorsForProof_length (s : WindowPoStScheduler) (goodSectors allSectors : BitField)
    (ts : TipSet) (sset : List ChainSectorInfo)
    (hlookup : s.StateMinerSectors s.actor goodSectors ts.Key = .ok sset) :
    ∃ proofSectors, sectorsForProof s goodSectors allSectors ts = .ok proofSectors ∧
      proofSectors.length = if sset.length = 0 then 0 else allSectors.card := by
  cases sset with
  | nil =>
    refine ⟨[], ?_, rfl⟩
    unfold sectorsForProof
    simp only [hlookup]
  | cons sset0 rest =>
    refine ⟨_, sectorsForProof_eq s goodSectors allSectors ts sset0 rest hlookup, ?_⟩
    simp [BitField.length_ForEach]

/-- Instance of the amended C2: provable `{10}`, partition set `{10, 11}`,
list of length two. -/
theorem sectorsForProof_length_witness :
    ∃ proofSectors,
      sectorsForProof exampleScheduler {10} {10, 11} exampleTipSet = .ok proofSectors ∧
        proofSectors.length = 2 := by
  obtain ⟨l, h1, h2⟩ := sectorsForProof_length exampleScheduler {10} {10, 11} exampleTipSet
    [{ Info := { SealProof := 3, SealedCID := 110 }, ID := 10 }] (by decide)
  exact ⟨l, h1, h2.trans (by decide)⟩

/-- C3: when the sector lookup returns the non-empty list `sset0 :: rest`,
`sectorsForProof` returns one entry per sector number of `allSectors`, in
ascending order of the numbers; the entry for `n` is the info of the looked-up
sector with number `n` (the last one in the list, should there be several)
and, when no looked-up sector has number `n`, the info of `sset0`. -/
theorem sectorsForProof_entries (s : WindowPoStScheduler) (goodSectors allSectors : BitField)
    (ts : TipSet) (sset0 : ChainSectorInfo) (rest : List ChainSectorInfo)
    (hlookup : s.StateMinerSectors s.actor goodSectors ts.Key = .ok (sset0 :: rest)) :
    ∃ entry : Nat → SectorInfo,
      sectorsForProof s goodSectors allSectors ts
          = .ok ((Finset.sort (· ≤ ·) allSectors).map entry) ∧
        ((Finset.sort (· ≤ ·) allSectors).map entry).length = allSectors.card ∧
        (∀ n sector, (sset0 :: rest).reverse.find? (fun x => x.ID = n) = some sector →
          sector ∈ sset0 :: rest ∧ sector.ID = n ∧ entry n = sectorsForProof.info sector) ∧
        (∀ n, (∀ sector ∈ sset0 :: rest, sector.ID ≠ n) →
          entry n = sectorsForProof.info sset0) := by
  refine ⟨fun n =>
    match (sset0 :: rest).reverse.find? (fun sector => sector.ID = n) with
    | some sector => sectorsForProof.info sector
    | none => sectorsForProof.info sset0, ?_, ?_, ?_, ?_⟩
  · rw [← BitField.ForEach_eq_sort]
    exact sectorsForProof_eq s goodSectors allSectors ts sset0 rest hlookup
  · simp
  · intro n sector hfind
    refine ⟨?_, ?_, ?_⟩
    · exact List.mem_reverse.1 (List.mem_of_find?_eq_some hfind)
    · simpa using List.find?_some hfind
    · simp only [hfind]
  · intro n hn
    have : (sset0 :: rest).reverse.find? (fun x => decide (x.ID = n)) = none := by
      rw [List.find?_eq_none]
      intro x hx
      simpa using hn x (List.mem_reverse.1 hx)
    simp only [this]

/-- Instance of C3 from the specification: sectors `{10, 11}`, only 10
resolves; the list is the info of 10 followed by the info of 10 standing in
for 11. -/
theorem sectorsForProof_entries_witness :
    ∃ entry : Nat → SectorInfo,
      sectorsForProof tenOnlyScheduler {10, 11} {10, 11} exampleTipSet
          = .ok ((Finset.sort (· ≤ ·) ({10, 11} : BitField)).map entry) ∧
        entry 10 = { SealProof := 3, SectorNumber := 10, SealedCID := 110 } ∧
        entry 11 = { SealProof := 3, SectorNumber := 10, SealedCID := 110 } ∧
        sectorsForProof tenOnlyScheduler {10, 11} {10, 11} exampleTipSet
          = .ok [{ SealProof := 3, SectorNumber := 10, SealedCID := 110 },
                 { SealProof := 3, SectorNumber := 10, SealedCID := 110 }] := by
  obtain ⟨entry, h1, _, h3, h4⟩ := sectorsForProof_entries tenOnlyScheduler
    {10, 11} {10, 11} exampleTipSet
    { Info := { SealProof := 3, SealedCID := 110 }, ID := 10 } [] rfl
  refine ⟨entry, h1, ?_, ?_, by decide⟩
  · exact (h3 10 _ rfl).2.2
  · exact h4 11 (by decide)

/-! ## `setSender` -/

/-- C9: `setSender` always returns; if the actor-info lookup, the gas
estimation or the address selection fails, the message leaves with `From`
equal to the worker address `s.worker`, and when all three succeed `From` is
the selected address. -/
theorem setSender_From (s : WindowPoStScheduler) (msg : Message) (spec : MessageSendSpec) :
    (∀ e, s.StateMinerInfo s.actor = .error e → (setSender s msg spec).From = s.worker) ∧
      (∀ mi e, s.StateMinerInfo s.actor = .ok mi →
        s.GasEstimateMessageGas msg spec = .error e →
          (setSender s msg spec).From = s.worker) ∧
      (∀ mi gm e, s.StateMinerInfo s.actor = .ok mi →
        s.GasEstimateMessageGas msg spec = .ok gm →
          s.AddressFor mi .PoStAddr (s.RequiredFunds gm + gm.Value) = .error e →
            (setSender s msg spec).From = s.worker) ∧
      (∀ mi gm pa, s.StateMinerInfo s.actor = .ok mi →
        s.GasEstimateMessageGas msg spec = .ok gm →
          s.AddressFor mi .PoStAddr (s.RequiredFunds gm + gm.Value) = .ok pa →
            (setSender s msg spec).From = pa) := by
  refine ⟨?_, ?_, ?_, ?_⟩
  · intro e h
    simp only [setSender, h]
  · intro mi e h1 h2
    simp only [setSender, h1, h2]
  · intro mi gm e h1 h2 h3
    simp only [setSender, h1, h2, h3]
  · intro mi gm pa h1 h2 h3
    simp only [setSender, h1, h2, h3]

/-- Instance of C9: with a failing gas estimation the sender is the worker
address 2000; with every step succeeding it is the selected address 3000. -/
theorem setSender_From_witness :
    (setSender noGasScheduler exampleMessage ⟨50⟩).From = 2000 ∧
      (setSender exampleScheduler exampleMessage ⟨50⟩).From = 3000 :=
  ⟨(setSender_From noGasScheduler exampleMessage ⟨50⟩).2.1 0 (.external 2) rfl rfl,
    (setSender_From exampleScheduler exampleMessage ⟨50⟩).2.2.2 0
      { exampleMessage with GasLimit := 10, GasFeeCap := 2, GasPremium := 1 } 3000
      rfl rfl rfl⟩

/-! ## `checkNextRecoveries` -/

theorem pushedMessages_append (a b : List Event) :
    pushedMessages (a ++ b) = pushedMessages a ++ pushedMessages b := by
  unfold pushedMessages
  exact List.filterMap_append _ _ _

theorem sectorIDs_ne_nil (mid : ActorID) (bf : BitField) (h : bf ≠ ∅) :
    sectorIDs mid bf ≠ [] := by
  unfold sectorIDs
  intro hnil
  rw [List.map_eq_nil_iff, BitField.ForEach_eq_nil] at hnil
  exact h hnil

/-- The loop of `checkNextRecoveries` from partition `k` on, when every oracle
query is answered: it appends the declarations of the specification and
pushes nothing. -/
theorem checkNextRecoveries_loop_spec (s : WindowPoStScheduler) (dlIdx : Nat)
    (spt : abi.RegisteredSealProof) (mid : ActorID) (answer : List SectorID → List SectorID)
    (hspt : s.RegisteredSealProof = .ok spt) (hmid : s.IDFromAddress s.actor = .ok mid)
    (horder : ∀ keys, (s.rangeOrder keys).Perm keys)
    (horacle : ∀ q, q ≠ [] → s.CheckProvable spt q = .ok (answer q))
    (ps : List PartitionSets) (k : Nat) (recoveries : List RecoveryDeclaration)
    (faulty : Nat) :
    ∃ tr faulty2,
      checkNextRecoveries.loop s dlIdx (ps.map Partition.ofSets) k recoveries faulty
        = ⟨tr, .ok (recoveries ++ (ps.enumFrom k).filterMap (fun ip =>
            let unrecovered := ip.2.faulty \ ip.2.recovering
            let R := unrecovered.filter fun n =>
              (⟨mid, n⟩ : SectorID) ∉ answer (sectorIDs mid unrecovered)
            if R = ∅ then none
            else some ({ Deadline := dlIdx, Partition := ip.1, Sectors := R } :
              RecoveryDeclaration)), faulty2)⟩ ∧
      pushedMessages tr = [] := by
  induction ps generalizing k recoveries faulty with
  | nil => exact ⟨[], faulty, by simp [checkNextRecoveries.loop], rfl⟩
  | cons p ps ih =>
    by_cases hu : p.faulty \ p.recovering = ∅
    · obtain ⟨tr, f2, h1, h2⟩ := ih (k + 1) recoveries faulty
      refine ⟨tr, f2, ?_, h2⟩
      simp only [List.map_cons, checkNextRecoveries.loop, Partition.ofSets, wrapErr_ok,
        Run.ofExcept_ok, Run.bind_eq, Run.bind_mk_ok, SubtractBitField, BitField.Count, hu,
        Finset.card_empty, if_true, List.nil_append, List.enumFrom_cons, List.filterMap_cons,
        Finset.filter_empty]
      simpa only [Partition.ofSets] using h1
    · have hq := horacle _ (sectorIDs_ne_nil mid _ hu)
      have hrun := checkSectors_run s (p.faulty \ p.recovering) spt mid _ hspt hmid horder hq
      have hcard : (p.faulty \ p.recovering).card ≠ 0 := by
        rw [Ne, Finset.card_eq_zero]
        exact hu
      by_cases hR : (p.faulty \ p.recovering).filter (fun n =>
          (⟨mid, n⟩ : SectorID) ∉ answer (sectorIDs mid (p.faulty \ p.recovering))) = ∅
      · obtain ⟨tr, f2, h1, h2⟩ := ih (k + 1) recoveries
          ((faulty + (p.faulty \ p.recovering).card) % 2 ^ 64)
        refine ⟨[Event.CheckProvable spt (sectorIDs mid (p.faulty \ p.recovering))] ++ tr,
          f2, ?_, ?_⟩
        · simp only [List.map_cons, checkNextRecoveries.loop, Partition.ofSets, wrapErr_ok,
            Run.ofExcept_ok, Run.bind_eq, Run.bind_mk_ok, SubtractBitField, BitField.Count,
            hcard, if_false, List.nil_append, List.enumFrom_cons, List.filterMap_cons, hrun,
            Run.wrap_mk_ok]
          simp only [hR, Finset.card_empty, if_true]
          simp only [Partition.ofSets] at h1
          rw [h1]
          rfl
        · rw [pushedMessages_append, h2]
          rfl
      · have hcardR : ((p.faulty \ p.recovering).filter (fun n =>
            (⟨mid, n⟩ : SectorID) ∉ answer (sectorIDs mid (p.faulty \ p.recovering)))).card
              ≠ 0 := by
          rw [Ne, Finset.card_eq_zero]
          exact hR
        obtain ⟨tr, f2, h1, h2⟩ := ih (k + 1)
          (recoveries ++ [
            { Deadline := dlIdx
              Partition := k
              Sectors := (p.faulty \ p.recovering).filter (fun n =>
                (⟨mid, n⟩ : SectorID) ∉ answer (sectorIDs mid (p.faulty \ p.recovering))) }])
          ((faulty + (p.faulty \ p.recovering).card) % 2 ^ 64)
        refine ⟨[Event.CheckProvable spt (sectorIDs mid (p.faulty \ p.recovering))] ++ tr,
          f2, ?_, ?_⟩
        · simp only [List.map_cons, checkNextRecoveries.loop, Partition.ofSets, wrapErr_ok,
            Run.ofExcept_ok, Run.bind_eq, Run.bind_mk_ok, SubtractBitField, BitField.Count,
            hcard, if_false, List.nil_append, List.enumFrom_cons, List.filterMap_cons, hrun,
            Run.wrap_mk_ok]
          simp only [hR, hcardR, if_false]
          simp only [Partition.ofSets] at h1
          rw [h1]
          simp only [List.append_assoc]
          rfl
        · rw [pushedMessages_append, h2]
          rfl

/-- C5: when the seal-proof type and the actor id resolve and the oracle
answers every non-empty query without error, the recovery declarations that
`checkNextRecoveries` builds for partitions with succeeding accessors are
exactly those of the specification: in partition order, one declaration
`{Deadline = dlIdx, Partition = i, Sectors = R_i}` for each `i` with `R_i`
not empty.  When there is none, the function returns `nil` and pushes no
message; when there are some and they serialise, exactly one message is
pushed, carrying them. -/
theorem checkNextRecoveries_declarations (s : WindowPoStScheduler) (dlIdx : Nat)
    (ps : List PartitionSets) (spt : abi.RegisteredSealProof) (mid : ActorID)
    (answer : List SectorID → List SectorID)
    (hspt : s.RegisteredSealProof = .ok spt) (hmid : s.IDFromAddress s.actor = .ok mid)
    (horder : ∀ keys, (s.rangeOrder keys).Perm keys)
    (horacle : ∀ q, q ≠ [] → s.CheckProvable spt q = .ok (answer q)) :
    (∃ tr faulty,
      checkNextRecoveries.loop s dlIdx (ps.map Partition.ofSets) 0 [] 0
        = ⟨tr, .ok (spec_recoveryDeclarations mid answer dlIdx ps, faulty)⟩) ∧
    (spec_recoveryDeclarations mid answer dlIdx ps = [] →
      (checkNextRecoveries s dlIdx (ps.map Partition.ofSets)).out = .ok () ∧
        pushedMessages (checkNextRecoveries s dlIdx (ps.map Partition.ofSets)).trace = []) ∧
    (∀ enc, spec_recoveryDeclarations mid answer dlIdx ps ≠ [] →
      s.SerializeParams
          (.DeclareFaultsRecovered (spec_recoveryDeclarations mid answer dlIdx ps)) = .ok enc →
        pushedMessages (checkNextRecoveries s dlIdx (ps.map Partition.ofSets)).trace
          = [setSender s
              { To := s.actor, From := s.worker, Method := .DeclareFaultsRecovered,
                Params := enc, Value := 0, Nonce := 0, GasLimit := 0, GasFeeCap := 0,
                GasPremium := 0 }
              { MaxFee := s.MaxWindowPoStGasFee }]) := by
  obtain ⟨tr, f2, h1, h2⟩ := checkNextRecoveries_loop_spec s dlIdx spt mid answer hspt hmid
    horder horacle ps 0 [] 0
  rw [List.nil_append] at h1
  have h1b : checkNextRecoveries.loop s dlIdx (ps.map Partition.ofSets) 0 [] 0
      = ⟨tr, .ok (spec_recoveryDeclarations mid answer dlIdx ps, f2)⟩ := h1
  refine ⟨⟨tr, f2, h1b⟩, ?_, ?_⟩
  · intro hnil
    unfold checkNextRecoveries
    simp only [h1b, hnil, Run.bind_eq, Run.bind_mk_ok, List.length_nil, if_true, Run.pure_eq,
      List.append_nil]
    exact ⟨trivial, h2⟩
  · intro enc hne henc
    have hlen : (spec_recoveryDeclarations mid answer dlIdx ps).length ≠ 0 := by
      rw [Ne, List.length_eq_zero]
      exact hne
    unfold checkNextRecoveries
    simp only [h1b, Run.bind_eq, Run.bind_mk_ok, hlen, if_false, henc, wrapErr_ok,
      Run.ofExcept_ok, List.nil_append]
    cases hpush : s.MpoolPushMessage
        (setSender s
          { To := s.actor, From := s.worker, Method := .DeclareFaultsRecovered,
            Params := enc, Value := 0, Nonce := 0, GasLimit := 0, GasFeeCap := 0,
            GasPremium := 0 }
          { MaxFee := s.MaxWindowPoStGasFee })
        { MaxFee := s.MaxWindowPoStGasFee } with
    | error e =>
      simp only [wrapErr_error, Run.call_error, Run.bind_mk_err, pushedMessages_append, h2,
        List.nil_append]
      rfl
    | ok sm =>
      cases hwait : s.StateWaitMsg sm with
      | error e =>
        simp only [wrapErr_ok, wrapErr_error, Run.call_ok, Run.call_error, Run.bind_mk_ok,
          Run.bind_mk_err, pushedMessages_append, h2, List.nil_append, hwait]
        rfl
      | ok code =>
        simp only [wrapErr_ok, Run.call_ok, Run.bind_mk_ok, pushedMessages_append, h2,
          List.nil_append, hwait]
        by_cases hcode : code = 0
        · simp only [hcode, ne_eq, not_true_eq_false, if_false, Run.pure_eq]
          rfl
        · simp only [hcode, ne_eq, not_false_eq_true, if_true]
          rfl

/-- Instance of C5 from the specification: faulty `{5, 6}`, recovering `{5}`.
With an oracle that finds 6 provable there is one declaration, for `{6}`;
with an oracle that reports 6 unprovable there is none and nothing is pushed. -/
theorem checkNextRecoveries_declarations_witness :
    (∃ tr faulty,
      checkNextRecoveries.loop exampleScheduler 7 [Partition.ofSets recoveryExample] 0 [] 0
        = ⟨tr, .ok ([{ Deadline := 7, Partition := 0, Sectors := {6} }], faulty)⟩) ∧
    (∃ tr faulty,
      checkNextRecoveries.loop allBadScheduler 7 [Partition.ofSets recoveryExample] 0 [] 0
        = ⟨tr, .ok ([], faulty)⟩) ∧
    pushedMessages
      (checkNextRecoveries allBadScheduler 7 [Partition.ofSets recoveryExample]).trace = [] := by
  have hgood := checkNextRecoveries_declarations exampleScheduler 7 [recoveryExample] 3 1000
    (fun _ => []) rfl rfl (fun keys => List.reverse_perm keys) (fun _ _ => rfl)
  have hbad := checkNextRecoveries_declarations allBadScheduler 7 [recoveryExample] 3 1000
    (fun q => q) rfl rfl (fun keys => List.reverse_perm keys) (fun _ _ => rfl)
  have e1 : spec_recoveryDeclarations 1000 (fun _ => []) 7 [recoveryExample]
      = [{ Deadline := 7, Partition := 0, Sectors := {6} }] := by decide
  have e2 : spec_recoveryDeclarations 1000 (fun q => q) 7 [recoveryExample] = [] := by decide
  rw [e1] at hgood
  rw [e2] at hbad
  exact ⟨hgood.1, hbad.1, (hbad.2.1 rfl).2⟩

/-! ## `checkNextFaults` -/

theorem sdiff_filter_not_mem (mid : ActorID) (active : BitField) (bad : List SectorID) :
    active \ active.filter (fun n => (⟨mid, n⟩ : SectorID) ∉ bad)
      = active.filter (fun n => (⟨mid, n⟩ : SectorID) ∈ bad) := by
  ext n
  simp only [Finset.mem_sdiff, Finset.mem_filter, not_and, not_not]
  tauto

/-- The loop of `checkNextFaults` when every oracle query is answered: the
sector sets and the order of the declarations are those of the
specification, the `Partition` field of every declaration is the one value
`partIdx`, and nothing is pushed. -/
theorem checkNextFaults_loop_spec (s : WindowPoStScheduler) (partIdx dlIdx : Nat)
    (spt : abi.RegisteredSealProof) (mid : ActorID) (answer : List SectorID → List SectorID)
    (hspt : s.RegisteredSealProof = .ok spt) (hmid : s.IDFromAddress s.actor = .ok mid)
    (horder : ∀ keys, (s.rangeOrder keys).Perm keys)
    (horacle : ∀ q, s.CheckProvable spt q = .ok (answer q))
    (ps : List PartitionSets) (faults : List FaultDeclaration) (bad : Nat) :
    ∃ tr bad2,
      checkNextFaults.loop s partIdx dlIdx (ps.map Partition.ofSets) faults bad
        = ⟨tr, .ok (faults ++ ps.filterMap (fun p =>
            let F := p.active.filter fun n =>
              (⟨mid, n⟩ : SectorID) ∈ answer (sectorIDs mid p.active)
            if F = ∅ then none
            else some ({ Deadline := dlIdx, Partition := partIdx, Sectors := F } :
              FaultDeclaration)), bad2)⟩ ∧
      pushedMessages tr = [] := by
  induction ps generalizing faults bad with
  | nil => exact ⟨[], bad, by simp [checkNextFaults.loop], rfl⟩
  | cons p ps ih =>
    have hq : s.CheckProvable spt (sectorIDs mid p.active)
        = .ok (answer (sectorIDs mid p.active)) := horacle _
    have hrun := checkSectors_run s p.active spt mid _ hspt hmid horder hq
    have hsd := sdiff_filter_not_mem mid p.active (answer (sectorIDs mid p.active))
    by_cases hF : p.active.filter (fun n =>
        (⟨mid, n⟩ : SectorID) ∈ answer (sectorIDs mid p.active)) = ∅
    · obtain ⟨tr, b2, h1, h2⟩ := ih faults bad
      refine ⟨[Event.CheckProvable spt (sectorIDs mid p.active)] ++ tr, b2, ?_, ?_⟩
      · simp only [List.map_cons, checkNextFaults.loop, Partition.ofSets, wrapErr_ok,
          Run.ofExcept_ok, Run.bind_eq, Run.bind_mk_ok, SubtractBitField, BitField.Count,
          List.nil_append, List.filterMap_cons, hrun, Run.wrap_mk_ok]
        simp only [hsd, hF, Finset.card_empty, if_true]
        simp only [Partition.ofSets] at h1
        rw [h1]
        rfl
      · rw [pushedMessages_append, h2]
        rfl
    · have hcard : (p.active.filter (fun n =>
          (⟨mid, n⟩ : SectorID) ∈ answer (sectorIDs mid p.active))).card ≠ 0 := by
        rw [Ne, Finset.card_eq_zero]
        exact hF
      obtain ⟨tr, b2, h1, h2⟩ := ih
        (faults ++ [
          { Deadline := dlIdx
            Partition := partIdx
            Sectors := p.active.filter (fun n =>
              (⟨mid, n⟩ : SectorID) ∈ answer (sectorIDs mid p.active)) }])
        ((bad + (p.active.filter (fun n =>
          (⟨mid, n⟩ : SectorID) ∈ answer (sectorIDs mid p.active))).card) % 2 ^ 64)
      refine ⟨[Event.CheckProvable spt (sectorIDs mid p.active)] ++ tr, b2, ?_, ?_⟩
      · simp only [List.map_cons, checkNextFaults.loop, Partition.ofSets, wrapErr_ok,
          Run.ofExcept_ok, Run.bind_eq, Run.bind_mk_ok, SubtractBitField, BitField.Count,
          List.nil_append, List.filterMap_cons, hrun, Run.wrap_mk_ok]
        simp only [hsd, hF, hcard, if_false]
        simp only [Partition.ofSets] at h1
        rw [h1]
        simp only [List.append_assoc]
        rfl
      · rw [pushedMessages_append, h2]
        rfl

/-- The declarations of the specification with the partition index dropped. -/
theorem spec_faultDeclarations_sets (mid : ActorID) (answer : List SectorID → List SectorID)
    (dlIdx : Nat) (ps : List PartitionSets) :
    (spec_faultDeclarations mid answer dlIdx ps).map (fun d => (d.Deadline, d.Sectors))
      = ps.filterMap (fun p =>
          let F := p.active.filter fun n =>
            (⟨mid, n⟩ : SectorID) ∈ answer (sectorIDs mid p.active)
          if F = ∅ then none else some (dlIdx, F)) := by
  unfold spec_faultDeclarations List.enum
  generalize 0 = k
  induction ps generalizing k with
  | nil => rfl
  | cons p ps ih =>
    simp only [List.enumFrom_cons, List.filterMap_cons]
    by_cases hF : p.active.filter (fun n =>
        (⟨mid, n⟩ : SectorID) ∈ answer (sectorIDs mid p.active)) = ∅
    · simp only [hF, if_true]
      exact ih (k + 1)
    · simp only [hF, if_false, List.map_cons]
      rw [ih (k + 1)]

/-- What holds of `checkNextFaults` for every value of `partIdx`: deadline,
sector sets and order of the declarations are those of the specification,
each declaration carries `partIdx` as its partition, and with no declaration
the function returns `nil` without pushing a message. -/
theorem checkNextFaults_sets (s : WindowPoStScheduler) (partIdx dlIdx : Nat)
    (ps : List PartitionSets) (spt : abi.RegisteredSealProof) (mid : ActorID)
    (answer : List SectorID → List SectorID)
    (hspt : s.RegisteredSealProof = .ok spt) (hmid : s.IDFromAddress s.actor = .ok mid)
    (horder : ∀ keys, (s.rangeOrder keys).Perm keys)
    (horacle : ∀ q, s.CheckProvable spt q = .ok (answer q)) :
    ∃ tr faults bad,
      checkNextFaults.loop s partIdx dlIdx (ps.map Partition.ofSets) [] 0
        = ⟨tr, .ok (faults, bad)⟩ ∧
      faults.map (fun d => (d.Deadline, d.Sectors))
        = (spec_faultDeclarations mid answer dlIdx ps).map (fun d => (d.Deadline, d.Sectors)) ∧
      (∀ d ∈ faults, d.Partition = partIdx) ∧
      (faults = [] →
        (checkNextFaults s partIdx dlIdx (ps.map Partition.ofSets)).out = .ok () ∧
          pushedMessages
            (checkNextFaults s partIdx dlIdx (ps.map Partition.ofSets)).trace = []) := by
  obtain ⟨tr, b2, h1, h2⟩ := checkNextFaults_loop_spec s partIdx dlIdx spt mid answer hspt
    hmid horder horacle ps [] 0
  rw [List.nil_append] at h1
  refine ⟨tr, _, b2, h1, ?_, ?_, ?_⟩
  · rw [spec_faultDeclarations_sets, List.map_filterMap]
    congr 1
    funext p
    by_cases hF : p.active.filter (fun n =>
        (⟨mid, n⟩ : SectorID) ∈ answer (sectorIDs mid p.active)) = ∅
    · simp only [hF, if_true, Option.map_none']
    · simp only [hF, if_false, Option.map_some']
  · intro d hd
    rw [List.mem_filterMap] at hd
    obtain ⟨p, _, hp⟩ := hd
    by_cases hF : p.active.filter (fun n =>
        (⟨mid, n⟩ : SectorID) ∈ answer (sectorIDs mid p.active)) = ∅
    · simp only [hF, if_true] at hp
      cases hp
    · simp only [hF, if_false, Option.some.injEq] at hp
      rw [← hp]
  · intro hnil
    unfold checkNextFaults
    simp only [h1, hnil, Run.bind_eq, Run.bind_mk_ok, List.length_nil, if_true, Run.pure_eq,
      List.append_nil]
    exact ⟨trivial, h2⟩

/-- C6 at the failing input: two partitions, `{1, 2, 3}` and `{2, 4}`, with
sector 2 reported unprovable in both.  The specification asks for the
declarations with `Partition` 0 and 1; whatever `partIdx` stands for, the code
gives both declarations the same `Partition`, so its list differs. -/
theorem checkNextFaults_partition_index (partIdx : Nat) :
    (checkNextFaults.loop twoBadScheduler partIdx 7 (faultExample.map Partition.ofSets)
        [] 0).out
      = .ok ([{ Deadline := 7, Partition := partIdx, Sectors := {2} },
              { Deadline := 7, Partition := partIdx, Sectors := {2} }], 2) ∧
    spec_faultDeclarations 1000 (fun q => q.filter fun id => id.Number = 2) 7 faultExample
      = [{ Deadline := 7, Partition := 0, Sectors := {2} },
         { Deadline := 7, Partition := 1, Sectors := {2} }] ∧
    ∀ bad,
      (checkNextFaults.loop twoBadScheduler partIdx 7 (faultExample.map Partition.ofSets)
          [] 0).out
        ≠ .ok (spec_faultDeclarations 1000 (fun q => q.filter fun id => id.Number = 2) 7
            faultExample, bad) := by
  have hcode : (checkNextFaults.loop twoBadScheduler partIdx 7
      (faultExample.map Partition.ofSets) [] 0).out
      = .ok ([{ Deadline := 7, Partition := partIdx, Sectors := {2} },
              { Deadline := 7, Partition := partIdx, Sectors := {2} }], 2) := by
    rfl
  have hspec : spec_faultDeclarations 1000 (fun q => q.filter fun id => id.Number = 2) 7
      faultExample
      = [{ Deadline := 7, Partition := 0, Sectors := {2} },
         { Deadline := 7, Partition := 1, Sectors := {2} }] := by decide
  refine ⟨hcode, hspec, ?_⟩
  intro bad h
  rw [hcode, hspec] at h
  simp only [Outcome.ok.injEq, Prod.mk.injEq, List.cons.injEq, FaultDeclaration.mk.injEq,
    true_and, and_true] at h
  omega

/-! ## Traces of the proving path -/

theorem onlyOracle_nil : onlyOracle [] := by
  intro e he
  cases he

theorem onlyOracle_append {a b : List Event} (ha : onlyOracle a) (hb : onlyOracle b) :
    onlyOracle (a ++ b) := by
  intro e he
  rcases List.mem_append.1 he with h | h
  · exact ha e h
  · exact hb e h

theorem onlyOracle_quiet {tr : List Event} (h : onlyOracle tr) :
    proverCalls tr = [] ∧ pushedMessages tr = [] ∧ failPostCalls tr = [] := by
  induction tr with
  | nil => exact ⟨rfl, rfl, rfl⟩
  | cons e tr ih =>
    obtain ⟨spt, q, rfl⟩ := h e (List.mem_cons_self _ _)
    obtain ⟨h1, h2, h3⟩ := ih (fun e he => h e (List.mem_cons_of_mem _ he))
    refine ⟨?_, ?_, ?_⟩
    · simpa [proverCalls] using h1
    · simpa [pushedMessages] using h2
    · simpa [failPostCalls] using h3

@[simp] theorem Run.ofExcept_trace {α : Type} (x : Except Error α) :
    (Run.ofExcept x).trace = [] := by
  cases x <;> rfl

@[simp] theorem Run.wrap_trace {α : Type} (msg : String) (r : Run α) :
    (Run.wrap msg r).trace = r.trace := by
  unfold Run.wrap
  cases r.out <;> rfl

theorem Run.bind_onlyOracle {α β : Type} (m : Run α) (f : α → Run β)
    (hm : onlyOracle m.trace) (hf : ∀ a, onlyOracle (f a).trace) :
    onlyOracle (Run.bind m f).trace := by
  unfold Run.bind
  cases h : m.out with
  | ok a => exact onlyOracle_append hm (hf a)
  | err e => exact hm
  | panic msg => exact hm

theorem checkSectors_onlyOracle (s : WindowPoStScheduler) (check : BitField) :
    onlyOracle (checkSectors s check).trace := by
  unfold checkSectors
  simp only [Run.bind_eq]
  refine Run.bind_onlyOracle _ _ (by simp [onlyOracle_nil]) (fun spt => ?_)
  refine Run.bind_onlyOracle _ _ (by simp [onlyOracle_nil]) (fun mid => ?_)
  refine Run.bind_onlyOracle _ _ ?_ (fun bad => ?_)
  · intro e he
    cases hq : wrapErr "checking provable sectors"
        (s.CheckProvable spt (checkSectors.collect mid check.ForEach GoMap.empty []).2) with
    | error err =>
      rw [hq] at he
      exact ⟨_, _, List.mem_singleton.1 he⟩
    | ok bad =>
      rw [hq] at he
      exact ⟨_, _, List.mem_singleton.1 he⟩
  · exact onlyOracle_nil

/-- Whatever the partitions, the assembly loop of `runPost` calls nothing but
the provability oracle. -/
theorem runPost_loop_onlyOracle (s : WindowPoStScheduler) (ts : TipSet)
    (partitions : List Partition) (partIdx : Nat) (v : runPost.Vars) :
    onlyOracle (runPost.loop s ts partitions partIdx v).trace := by
  induction partitions generalizing partIdx v with
  | nil => exact onlyOracle_nil
  | cons p rest ih =>
    unfold runPost.loop
    simp only [Run.bind_eq]
    refine Run.bind_onlyOracle _ _ (by simp [onlyOracle_nil]) (fun toProve => ?_)
    refine Run.bind_onlyOracle _ _ (by simp [onlyOracle_nil]) (fun toProve2 => ?_)
    refine Run.bind_onlyOracle _ _ ?_ (fun good => ?_)
    · rw [Run.wrap_trace]
      exact checkSectors_onlyOracle s toProve2
    refine Run.bind_onlyOracle _ _ (by simp [onlyOracle_nil]) (fun skipped => ?_)
    refine Run.bind_onlyOracle _ _ (by simp [onlyOracle_nil]) (fun sc => ?_)
    refine Run.bind_onlyOracle _ _ (by simp [onlyOracle_nil]) (fun ssi => ?_)
    split
    · exact ih _ _
    · exact ih _ _

theorem foldl_apppend (parts acc : List Partition) :
    parts.foldl apppend acc = acc ++ parts := by
  induction parts generalizing acc with
  | nil => simp
  | cons p parts ih => simp [ih, apppend]

/-- When every partition yields an empty `SectorInfo` list, the assembly loop
ends with the payload and the proof-input list as they were. -/
theorem runPost_loop_all_empty (s : WindowPoStScheduler) (ts : TipSet)
    (partitions : List Partition)
    (hempty : ∀ p ∈ partitions, ∃ active good, p.ActiveSectors = .ok active ∧
      (checkSectors s (active ∪ p.Recoveries)).out = .ok good ∧
      sectorsForProof s good p.Sectors ts = .ok [])
    (partIdx : Nat) (v : runPost.Vars) :
    ∃ sc, (runPost.loop s ts partitions partIdx v).out = .ok { v with skipCount := sc } := by
  induction partitions generalizing partIdx v with
  | nil => exact ⟨v.skipCount, rfl⟩
  | cons p rest ih =>
    obtain ⟨active, good, hactive, hgood, hssi⟩ := hempty p (List.mem_cons_self _ _)
    have hgood2 : checkSectors s (active ∪ p.Recoveries)
        = ⟨(checkSectors s (active ∪ p.Recoveries)).trace, .ok good⟩ := by
      rw [← hgood]
    obtain ⟨sc, hsc⟩ := ih (fun q hq => hempty q (List.mem_cons_of_mem _ hq)) (partIdx + 1)
      { v with skipCount := (v.skipCount + ((active ∪ p.Recoveries) \ good).card) % 2 ^ 64 }
    refine ⟨sc, ?_⟩
    unfold runPost.loop
    rw [hactive]
    simp only [Run.bind_eq, wrapErr_ok, Run.ofExcept_ok, Run.bind_mk_ok, MergeBitFields]
    rw [hgood2]
    simp only [Run.wrap_mk_ok, Run.bind_mk_ok, SubtractBitField, BitField.Count, wrapErr_ok,
      Run.ofExcept_ok, hssi, List.length_nil, if_true]
    exact hsc

/-! ## `runPost` and `doPost` -/

/-- C7: when the lookups of `runPost` succeed and every partition of the
deadline yields an empty `SectorInfo` list, `runPost` returns
`errNoPartitions` without calling the proof engine, and `doPost` pushes no
message and does not call `failPost`. -/
theorem runPost_no_partitions (s : WindowPoStScheduler) (di : DlineInfo) (ts : TipSet)
    (act : Nat) (mas : MinerState) (buf : Bytes) (rand : Randomness) (dl : Deadline)
    (parts : List Partition)
    (hact : s.StateGetActor s.actor ts.Key = .ok act)
    (hmas : s.minerLoad act = .ok mas)
    (hbuf : s.MarshalCBOR s.actor = .ok buf)
    (hrand : s.ChainGetRandomnessFromBeacon ts.Key di.Challenge buf = .ok rand)
    (hdl : mas.LoadDeadline di.Index = .ok dl)
    (hparts : dl.ForEachPartition = .ok parts)
    (hempty : ∀ p ∈ parts, ∃ active good, p.ActiveSectors = .ok active ∧
      (checkSectors s (active ∪ p.Recoveries)).out = .ok good ∧
      sectorsForProof s good p.Sectors ts = .ok []) :
    (runPost s di ts).out = .err .errNoPartitions ∧
      proverCalls (runPost s di ts).trace = [] ∧
      (doPost s di ts).out = .ok () ∧
      pushedMessages (doPost s di ts).trace = [] ∧
      failPostCalls (doPost s di ts).trace = [] := by
  obtain ⟨sc, hsc⟩ := runPost_loop_all_empty s ts parts hempty 0 (runPost.init di)
  have hquiet := onlyOracle_quiet (runPost_loop_onlyOracle s ts parts 0 (runPost.init di))
  have hloop : runPost.loop s ts parts 0 (runPost.init di)
      = ⟨(runPost.loop s ts parts 0 (runPost.init di)).trace,
          .ok { runPost.init di with skipCount := sc }⟩ := by
    rw [← hsc]
  have hrun : runPost s di ts
      = ⟨(runPost.loop s ts parts 0 (runPost.init di)).trace, .err .errNoPartitions⟩ := by
    unfold runPost
    simp only [hact, hmas, hbuf, hrand, hdl, hparts, Run.bind_eq, wrapErr_ok,
      Run.ofExcept_ok, Run.bind_mk_ok, List.nil_append, foldl_apppend]
    rw [hloop]
    simp [Run.fail, runPost.init]
  have hdo : doPost s di ts
      = ⟨(runPost.loop s ts parts 0 (runPost.init di)).trace, .ok ()⟩ := by
    unfold doPost
    simp only [hrun]
  rw [hrun, hdo]
  exact ⟨rfl, hquiet.1, rfl, hquiet.2.1, hquiet.2.2⟩

/-- Instance of C7: a deadline with partitions `{1, 2}` and `∅` whose sector
lookup returns no sector. -/
theorem runPost_no_partitions_witness :
    (runPost nothingToProveScheduler exampleDeadline exampleTipSet).out
        = .err .errNoPartitions ∧
      proverCalls (runPost nothingToProveScheduler exampleDeadline exampleTipSet).trace = [] ∧
      (doPost nothingToProveScheduler exampleDeadline exampleTipSet).out = .ok () ∧
      pushedMessages (doPost nothingToProveScheduler exampleDeadline exampleTipSet).trace
        = [] ∧
      failPostCalls (doPost nothingToProveScheduler exampleDeadline exampleTipSet).trace
        = [] := by
  refine runPost_no_partitions nothingToProveScheduler exampleDeadline exampleTipSet 0
    (minerStateOf unresolvedPartitions) [1000] [1]
    { ForEachPartition := .ok (unresolvedPartitions.map Partition.ofSets) }
    (unresolvedPartitions.map Partition.ofSets) rfl rfl rfl rfl rfl rfl ?_
  intro p hp
  simp only [unresolvedPartitions, List.map_cons, List.map_nil, List.mem_cons,
    List.mem_singleton, List.not_mem_nil, or_false] at hp
  rcases hp with rfl | rfl
  · exact ⟨{1, 2}, {1, 2}, rfl, by decide, rfl⟩
  · exact ⟨∅, ∅, rfl, by decide, rfl⟩

/-- C8: when the lookups of `runPost` succeed, the assembly loop ends with a
non-empty proof-input list and the proof engine returns no error and no proof,
`runPost` returns an error that is not `errNoPartitions` (and so no payload),
and `doPost` calls `failPost` with the deadline and pushes no message. -/
theorem runPost_empty_proof (s : WindowPoStScheduler) (di : DlineInfo) (ts : TipSet)
    (act : Nat) (mas : MinerState) (buf : Bytes) (rand : Randomness) (dl : Deadline)
    (parts : List Partition) (v : runPost.Vars) (mid : ActorID)
    (postSkipped : List SectorID)
    (hact : s.StateGetActor s.actor ts.Key = .ok act)
    (hmas : s.minerLoad act = .ok mas)
    (hbuf : s.MarshalCBOR s.actor = .ok buf)
    (hrand : s.ChainGetRandomnessFromBeacon ts.Key di.Challenge buf = .ok rand)
    (hdl : mas.LoadDeadline di.Index = .ok dl)
    (hparts : dl.ForEachPartition = .ok parts)
    (hloop : (runPost.loop s ts parts 0 (runPost.init di)).out = .ok v)
    (hne : v.sinfos ≠ [])
    (hmid : s.IDFromAddress s.actor = .ok mid)
    (hprove : s.GenerateWindowPoSt mid v.sinfos rand = .ok ([], postSkipped)) :
    (runPost s di ts).out
        = .err (.errorf "received proofs back from generate window post") ∧
      (runPost s di ts).out ≠ .err .errNoPartitions ∧
      (∀ params, (runPost s di ts).out ≠ .ok params) ∧
      proverCalls (runPost s di ts).trace = [v.sinfos] ∧
      pushedMessages (doPost s di ts).trace = [] ∧
      failPostCalls (doPost s di ts).trace = [di] := by
  have hquiet := onlyOracle_quiet (runPost_loop_onlyOracle s ts parts 0 (runPost.init di))
  have hloop2 : runPost.loop s ts parts 0 (runPost.init di)
      = ⟨(runPost.loop s ts parts 0 (runPost.init di)).trace, .ok v⟩ := by
    rw [← hloop]
  have hlen : v.sinfos.length ≠ 0 := by
    rw [Ne, List.length_eq_zero]
    exact hne
  have hrun : runPost s di ts
      = ⟨(runPost.loop s ts parts 0 (runPost.init di)).trace
            ++ [.GenerateWindowPoSt mid v.sinfos rand],
          .err (.errorf "received proofs back from generate window post")⟩ := by
    unfold runPost
    simp only [hact, hmas, hbuf, hrand, hdl, hparts, Run.bind_eq, wrapErr_ok,
      Run.ofExcept_ok, Run.bind_mk_ok, List.nil_append, foldl_apppend]
    rw [hloop2]
    simp [Run.fail, hne, hmid, hprove]
  have hdo : doPost s di ts
      = ⟨(runPost.loop s ts parts 0 (runPost.init di)).trace
            ++ [.GenerateWindowPoSt mid v.sinfos rand] ++ [.failPost di], .ok ()⟩ := by
    unfold doPost
    simp only [hrun]
  rw [hrun, hdo]
  refine ⟨rfl, ?_, ?_, ?_, ?_, ?_⟩
  · intro h
    cases h
  · intro params h
    cases h
  · simp only [proverCalls, List.filterMap_append] at hquiet ⊢
    rw [hquiet.1]
    rfl
  · simp only [pushedMessages, List.filterMap_append] at hquiet ⊢
    rw [hquiet.2.1]
    rfl
  · simp only [failPostCalls, List.filterMap_append] at hquiet ⊢
    rw [hquiet.2.2]
    rfl

/-- Instance of C8: one partition with sector 1, an engine that returns no
proof and no error. -/
theorem runPost_empty_proof_witness :
    (runPost emptyProofScheduler exampleDeadline exampleTipSet).out
        = .err (.errorf "received proofs back from generate window post") ∧
      (runPost emptyProofScheduler exampleDeadline exampleTipSet).out
        ≠ .err .errNoPartitions ∧
      pushedMessages (doPost emptyProofScheduler exampleDeadline exampleTipSet).trace = [] ∧
      failPostCalls (doPost emptyProofScheduler exampleDeadline exampleTipSet).trace
        = [exampleDeadline] := by
  have h := runPost_empty_proof emptyProofScheduler exampleDeadline exampleTipSet 0
    (minerStateOf singlePartition) [1000] [1]
    { ForEachPartition := .ok (singlePartition.map Partition.ofSets) }
    (singlePartition.map Partition.ofSets)
    { params :=
        { Deadline := 3, Partitions := [{ Index := 0, Skipped := ∅ }], Proofs := [],
          ChainCommitEpoch := 0, ChainCommitRand := [] }
      sinfos := [{ SealProof := 3, SectorNumber := 1, SealedCID := 101 }]
      sidToPart := ⟨[(1, 0)]⟩
      skipCount := 0 }
    1000 [] rfl rfl rfl rfl rfl rfl (by decide) (by decide) rfl rfl
  exact ⟨h.1, h.2.1, h.2.2.2.2.1, h.2.2.2.2.2⟩

/-- C1 at the failing input: the deadline has three partitions, the first
without sectors, the second with sector 7, the third with sector 9, so the
payload holds the entries of partitions 1 and 2 at positions 0 and 1.  When
the engine skips sector 7, recorded in `sidToPart` under partition 1, the code
sets it in the entry at position 1, which is the entry of partition 2; when
the engine skips sector 9, recorded under partition 2, position 2 is outside
the payload and the run panics.  The first equation is the state after the
assembly loop. -/
theorem runPost_skipped_after_omitted_partition :
    (runPost.loop skipSevenScheduler exampleTipSet (gapPartitions.map Partition.ofSets) 0
        (runPost.init exampleDeadline)).out
        = .ok { params :=
                  { Deadline := 3
                    Partitions := [{ Index := 1, Skipped := ∅ }, { Index := 2, Skipped := ∅ }]
                    Proofs := []
                    ChainCommitEpoch := 0
                    ChainCommitRand := [] }
                sinfos := [{ SealProof := 3, SectorNumber := 7, SealedCID := 107 },
                           { SealProof := 3, SectorNumber := 9, SealedCID := 109 }]
                sidToPart := ⟨[(7, 1), (9, 2)]⟩
                skipCount := 0 } ∧
      (runPost skipSevenScheduler exampleDeadline exampleTipSet).out
        = .ok { Deadline := 3
                Partitions := [{ Index := 1, Skipped := ∅ }, { Index := 2, Skipped := {7} }]
                Proofs := [[9]]
                ChainCommitEpoch := 50
                ChainCommitRand := [2] } ∧
      (runPost skipNineScheduler exampleDeadline exampleTipSet).out
        = .panic "index out of range" := by
  refine ⟨?_, ?_, ?_⟩ <;> decide

end Storage
